import Mathlib

/-!
Verification of the scheduling core of the VEX judging scheduler (`src/app.py`).

Conventions of the shallow embedding:
* All timestamps are integers counting seconds (Python `datetime` values enter the
  engine only through differences and comparisons, so an absolute epoch offset is
  irrelevant); a `timedelta(minutes=m)` becomes `m * 60` seconds, and the damping
  offset `timedelta(minutes=block_minutes / 2)` becomes `block_minutes * 30` seconds.
* Python `//` on ints is `Int.fdiv`, `%` is `Int.fmod`, and `int(x / y)` (float
  division then truncation) is `Int.tdiv`.
* Randomized choices (`random.sample`, `random.shuffle`) are modelled as explicit
  parameters: the sampled judge set and the post-shuffle lists are inputs, and
  theorems quantify over all values a draw can produce (constrained by `Nodup`,
  subset and `Perm` hypotheses).
* Python functions that can raise are embedded as `Except`-valued functions.
-/

namespace VexSched

instance {ε α : Type} [DecidableEq ε] [DecidableEq α] : DecidableEq (Except ε α)
  | .error e, .error f =>
    if h : e = f then .isTrue (by rw [h]) else .isFalse (by simp [h])
  | .error _, .ok _ => .isFalse (by simp)
  | .ok _, .error _ => .isFalse (by simp)
  | .ok a, .ok b =>
    if h : a = b then .isTrue (by rw [h]) else .isFalse (by simp [h])

/-- A judging slot, as built by `_build_slots` and as stored in the state's slot
dictionaries (src/app.py lines 24-30). -/
structure Slot where
  judge_id : Int
  start : Int
  end_ : Int
  team : Option String := none
  status : String := "scheduled"
deriving DecidableEq

/-- Errors arising in the slot-grid phase of `generate`: `configError` is an
`HTTPException(400)` (the spec's `ConfigError`), `zeroDivisionError` is an uncaught
Python `ZeroDivisionError`. -/
inductive GenErr where
  | configError
  | zeroDivisionError
deriving DecidableEq

/-- `judge_ids = list(range(1, judge_pairs + 1))` (lines 117, 183, 631). -/
def judgeIds (judge_pairs : Nat) : List Int :=
  (List.range judge_pairs).map (fun i : Nat => (i : Int) + 1)

/-- `_build_slots` (src/app.py lines 109-122).  Python raises `ZeroDivisionError`
when `slot_minutes == 0`; for negative `slot_minutes` the floor division is
negative, `range` is empty and the function silently returns no slots. -/
def build_slots (judge_pairs : Nat) (start_time duration_minutes slot_minutes : Int) :
    Except GenErr (List Slot) :=
  if slot_minutes = 0 then .error .zeroDivisionError
  else
    let total := Int.fdiv duration_minutes slot_minutes
    .ok ((judgeIds judge_pairs).flatMap (fun j =>
      (List.range total.toNat).map (fun i =>
        { judge_id := j
          start := start_time + (i : Int) * slot_minutes * 60
          end_ := start_time + ((i : Int) + 1) * slot_minutes * 60 })))

/-- The slot-grid phase of `generate` (src/app.py lines 432-446): the duration is
`int((end_time - start_time).total_seconds() / 60)` (truncating division), it is
validated to be positive, and then `_build_slots` runs.  `slot_minutes` is taken
from the request payload unvalidated. -/
def generate_slot_grid (judge_pairs : Nat) (slot_minutes start_seconds end_seconds : Int) :
    Except GenErr (List Slot) :=
  let duration_minutes := Int.tdiv (end_seconds - start_seconds) 60
  if duration_minutes ≤ 0 then .error .configError
  else build_slots judge_pairs start_seconds duration_minutes slot_minutes

/-- C3 (status: code_bug).  The claim says slot-grid generation fails with
`ConfigError` whenever `slot_length ≤ 0` or `duration ≤ 0`.  The duration half is
implemented (first conjunct), but `slot_minutes` is never validated: a zero slot
length reaches the floor division in `_build_slots` and raises an unclassified
`ZeroDivisionError` (second conjunct, at a 9:00-10:00 window), and a negative slot
length silently succeeds with an empty slot grid (third conjunct). -/
theorem slot_grid_validation_gap :
    (∀ (jp : Nat) (sm s e : Int), Int.tdiv (e - s) 60 ≤ 0 →
      generate_slot_grid jp sm s e = .error .configError) ∧
    generate_slot_grid 4 0 32400 36000 = .error .zeroDivisionError ∧
    generate_slot_grid 4 (-10) 32400 36000 = .ok [] := by
  refine ⟨fun jp sm s e h => ?_, by decide, by decide⟩
  simp only [generate_slot_grid, if_pos h]

/-- Witness for C3: the duration check fires on a window that ends before it
starts. -/
theorem slot_grid_validation_gap_witness :
    Int.tdiv ((32400 : Int) - 36000) 60 ≤ 0 ∧
    generate_slot_grid 4 10 36000 32400 = .error .configError :=
  ⟨by decide, slot_grid_validation_gap.1 4 10 36000 32400 (by decide)⟩

/-! ### Stable sorting

Python's `list.sort` and `sorted` are stable.  The engine sorts by a key in four
places (src/app.py lines 105, 197, 316, 349, 363).  We embed them with a stable
insertion sort; a stable sort's output is uniquely determined by the key order,
so this agrees with CPython's timsort observationally. -/

def insertLe {α : Type} (le : α → α → Bool) (a : α) : List α → List α
  | [] => [a]
  | b :: bs => if le a b then a :: b :: bs else b :: insertLe le a bs

def sortLe {α : Type} (le : α → α → Bool) (l : List α) : List α :=
  l.foldr (insertLe le) []

theorem insertLe_perm {α : Type} (le : α → α → Bool) (a : α) (l : List α) :
    (insertLe le a l).Perm (a :: l) := by
  induction l with
  | nil => exact .refl _
  | cons b bs ih =>
    simp only [insertLe]
    cases h : le a b with
    | true => simp
    | false =>
      simp only [Bool.false_eq_true, if_false]
      exact (ih.cons b).trans (List.Perm.swap a b bs)

theorem sortLe_perm {α : Type} (le : α → α → Bool) (l : List α) :
    (sortLe le l).Perm l := by
  induction l with
  | nil => exact .refl _
  | cons a l ih => exact (insertLe_perm le a (sortLe le l)).trans (ih.cons a)

theorem mem_sortLe {α : Type} (le : α → α → Bool) (l : List α) (a : α) :
    a ∈ sortLe le l ↔ a ∈ l :=
  (sortLe_perm le l).mem_iff

theorem insertLe_pairwise {α : Type} {le : α → α → Bool}
    (htot : ∀ x y, le x y = false → le y x = true)
    (htrans : ∀ x y z, le x y = true → le y z = true → le x z = true)
    (a : α) {l : List α} (hl : l.Pairwise (fun x y => le x y = true)) :
    (insertLe le a l).Pairwise (fun x y => le x y = true) := by
  induction l with
  | nil => simp [insertLe]
  | cons b bs ih =>
    rcases List.pairwise_cons.mp hl with ⟨hb, hbs⟩
    simp only [insertLe]
    cases h : le a b with
    | true =>
      refine List.pairwise_cons.mpr ⟨?_, hl⟩
      intro x hx
      rcases List.mem_cons.mp hx with rfl | hx'
      · exact h
      · exact htrans a b x h (hb x hx')
    | false =>
      simp only [Bool.false_eq_true, if_false]
      refine List.pairwise_cons.mpr ⟨?_, ih hbs⟩
      intro x hx
      rcases List.mem_cons.mp ((insertLe_perm le a bs).mem_iff.mp hx) with hxa | hx'
      · rw [hxa]
        exact htot a b h
      · exact hb x hx'

theorem sortLe_pairwise {α : Type} {le : α → α → Bool}
    (htot : ∀ x y, le x y = false → le y x = true)
    (htrans : ∀ x y z, le x y = true → le y z = true → le x z = true)
    (l : List α) :
    (sortLe le l).Pairwise (fun x y => le x y = true) := by
  induction l with
  | nil => simp [sortLe]
  | cons a l ih => exact insertLe_pairwise htot htrans a ih

theorem filter_insertLe {α : Type} (le : α → α → Bool) (p : α → Bool) (a : α)
    (l : List α) (hpass : ∀ b, le a b = false → p a = true → p b = false) :
    (insertLe le a l).filter p = if p a then a :: l.filter p else l.filter p := by
  induction l with
  | nil => cases hpa : p a <;> simp [insertLe, hpa]
  | cons b bs ih =>
    simp only [insertLe]
    cases h : le a b with
    | true => simp [List.filter_cons]
    | false =>
      simp only [Bool.false_eq_true, if_false, List.filter_cons, ih]
      cases hpa : p a with
      | true => simp [hpass b h hpa]
      | false => simp

/-- Stability of the embedded sort, phrased per key class: filtering a class out
of the sorted list gives the class in original order. -/
theorem sortLe_filter {α : Type} (le : α → α → Bool) (p : α → Bool)
    (h : ∀ a b, le a b = false → p a = true → p b = false) (l : List α) :
    (sortLe le l).filter p = l.filter p := by
  induction l with
  | nil => rfl
  | cons a l ih =>
    show (insertLe le a (sortLe le l)).filter p = _
    rw [filter_insertLe le p a _ (h a), ih, List.filter_cons]

/-! ### Gap analysis (`_compute_gaps_sorted`) -/

/-- One competition-match occurrence of a team (`{"time": ..., "label": ...}`),
as produced by `_extract_team_matches`. -/
structure MatchEntry where
  time : Int
  label : String
deriving DecidableEq

/-- A gap dictionary as built on src/app.py lines 308-315 (suggestion gaps keep
the same fields, with times serialized to ISO strings, lines 329-334). -/
structure Gap where
  start : Int
  end_ : Int
  minutes : Int
  between : String
deriving DecidableEq

/-- The gap-collection loop of `_compute_gaps_sorted` (src/app.py lines 299-315),
before sorting.  `int((end - start).total_seconds() / 60)` truncates toward zero,
hence `Int.tdiv`. -/
def rawGaps : List MatchEntry → List Gap
  | [] => []
  | [_] => []
  | a :: b :: rest =>
    let gm := Int.tdiv (b.time - a.time) 60
    if gm ≤ 0 then rawGaps (b :: rest)
    else ⟨a.time, b.time, gm, a.label ++ " and " ++ b.label⟩ :: rawGaps (b :: rest)

/-- `gaps.sort(key=lambda g: g["minutes"], reverse=True)`: stable descending
comparison by minutes. -/
def gapDescLe (g1 g2 : Gap) : Bool := decide (g2.minutes ≤ g1.minutes)

/-- `_compute_gaps_sorted` (src/app.py lines 296-317). -/
def compute_gaps_sorted (entries : List MatchEntry) : List Gap :=
  sortLe gapDescLe (rawGaps entries)

/-- The adjacent pairs `(entries[i], entries[i+1])` of the claim. -/
def adjacentPairs (entries : List MatchEntry) : List (MatchEntry × MatchEntry) :=
  entries.zip entries.tail

theorem tdiv60_pos_iff (d : Int) : 0 < Int.tdiv d 60 ↔ 60 ≤ d := by
  rcases le_or_lt 0 d with h | h
  · rw [Int.tdiv_eq_ediv h (by norm_num)]
    omega
  · have hneg : Int.tdiv d 60 = -Int.tdiv (-d) 60 := by
      rw [← Int.neg_tdiv, neg_neg]
    rw [hneg, Int.tdiv_eq_ediv (by omega) (by norm_num)]
    omega

theorem tdiv60_eq_fdiv60 {d : Int} (h : 60 ≤ d) :
    Int.tdiv d 60 = Int.fdiv d 60 := by
  rw [Int.tdiv_eq_ediv (by omega) (by norm_num), Int.fdiv_eq_ediv d (by norm_num)]

theorem fdiv60_pos_iff (d : Int) : 0 < Int.fdiv d 60 ↔ 60 ≤ d := by
  rw [Int.fdiv_eq_ediv d (by norm_num)]
  omega

/-- The gap record the claim describes for an adjacent pair, with the floored
minute difference. -/
def flooredGap (pr : MatchEntry × MatchEntry) : Option Gap :=
  if 0 < Int.fdiv (pr.2.time - pr.1.time) 60 then
    some ⟨pr.1.time, pr.2.time, Int.fdiv (pr.2.time - pr.1.time) 60,
      pr.1.label ++ " and " ++ pr.2.label⟩
  else none

theorem rawGaps_eq_filterMap (entries : List MatchEntry) :
    rawGaps entries = (adjacentPairs entries).filterMap flooredGap := by
  induction entries with
  | nil => rfl
  | cons a rest ih =>
    cases rest with
    | nil => rfl
    | cons b rest' =>
      have hadj : adjacentPairs (a :: b :: rest')
          = (a, b) :: adjacentPairs (b :: rest') := by
        simp [adjacentPairs]
      rw [hadj, List.filterMap_cons]
      by_cases h : Int.tdiv (b.time - a.time) 60 ≤ 0
      · have hneg : ¬ 0 < Int.fdiv (b.time - a.time) 60 := by
          rw [fdiv60_pos_iff]
          rw [← tdiv60_pos_iff]
          omega
        simp only [rawGaps, if_pos h, flooredGap, if_neg hneg]
        exact ih
      · have h60 : 60 ≤ b.time - a.time := (tdiv60_pos_iff _).mp (by omega)
        have hpos : 0 < Int.fdiv (b.time - a.time) 60 := (fdiv60_pos_iff _).mpr h60
        simp only [rawGaps, if_neg h, flooredGap, if_pos hpos]
        rw [tdiv60_eq_fdiv60 h60, ih]

/-- C5 (status: confirmed).  The gap analyzer `_compute_gaps_sorted` returns
exactly the gaps between adjacent entry pairs whose floored minute difference
`floor((time[i+1] - time[i]) / 60s)` is strictly positive (non-positive
differences are silently skipped), sorted descending by minutes, with ties kept
in original chronological order (stability, phrased as: filtering any fixed
minute value out of the result gives that class in original order), and the
result is empty when the team has fewer than two entries. -/
theorem gap_analyzer_sorted_stable (entries : List MatchEntry) :
    rawGaps entries = (adjacentPairs entries).filterMap flooredGap ∧
    (compute_gaps_sorted entries).Perm (rawGaps entries) ∧
    (compute_gaps_sorted entries).Pairwise (fun g1 g2 => g2.minutes ≤ g1.minutes) ∧
    (∀ m : Int, (compute_gaps_sorted entries).filter (fun g => decide (g.minutes = m))
      = (rawGaps entries).filter (fun g => decide (g.minutes = m))) ∧
    (entries.length < 2 → compute_gaps_sorted entries = []) := by
  refine ⟨rawGaps_eq_filterMap entries, sortLe_perm _ _, ?_, ?_, ?_⟩
  · have hp := @sortLe_pairwise Gap gapDescLe
      (fun x y hxy => by
        simp only [gapDescLe, decide_eq_false_iff_not, not_le] at hxy
        simp only [gapDescLe, decide_eq_true_eq]
        omega)
      (fun x y z hxy hyz => by
        simp only [gapDescLe, decide_eq_true_eq] at hxy hyz ⊢
        omega)
      (rawGaps entries)
    exact hp.imp (fun h => by simpa [gapDescLe] using h)
  · intro m
    exact sortLe_filter gapDescLe _
      (fun a b hab hpa => by
        simp only [gapDescLe, decide_eq_false_iff_not, not_le] at hab
        simp only [decide_eq_true_eq] at hpa
        simp only [decide_eq_false_iff_not]
        omega)
      (rawGaps entries)
  · intro hlen
    match entries, hlen with
    | [], _ => rfl
    | [_], _ => rfl

/-- Witness for C5 at the spec's own example: entries at 9:00, 9:05, 9:25 give
gaps ranked `[20m, 5m]`. -/
theorem gap_analyzer_sorted_stable_witness :
    compute_gaps_sorted [⟨32400, "Q1"⟩, ⟨32700, "Q2"⟩, ⟨33900, "Q3"⟩]
        = [⟨32700, 33900, 20, "Q2 and Q3"⟩, ⟨32400, 32700, 5, "Q1 and Q2"⟩] ∧
    (compute_gaps_sorted [⟨32400, "Q1"⟩, ⟨32700, "Q2"⟩, ⟨33900, "Q3"⟩]).Pairwise
      (fun g1 g2 => g2.minutes ≤ g1.minutes) :=
  ⟨by decide, (gap_analyzer_sorted_stable [⟨32400, "Q1"⟩, ⟨32700, "Q2"⟩, ⟨33900, "Q3"⟩]).2.2.1⟩

/-! ### Interval conflicts and `_find_slot_in_gap` -/

/-- The half-open overlap test of src/app.py line 378:
`start < interval[1] and end > interval[0]`. -/
def overlapsB (s e : Int) (iv : Int × Int) : Bool :=
  decide (s < iv.2) && decide (e > iv.1)

theorem overlapsB_iff (s e : Int) (iv : Int × Int) :
    overlapsB s e iv = true ↔ s < iv.2 ∧ iv.1 < e := by
  simp [overlapsB, gt_iff_lt, and_comm]

/-- `next((interval for interval in intervals if start < interval[1] and
end > interval[0]), None)` (src/app.py lines 377-380). -/
def findConflict (s e : Int) : List (Int × Int) → Option (Int × Int)
  | [] => none
  | iv :: rest => if overlapsB s e iv then some iv else findConflict s e rest

theorem findConflict_eq_none {s e : Int} {l : List (Int × Int)} :
    findConflict s e l = none ↔ ∀ iv ∈ l, ¬(s < iv.2 ∧ iv.1 < e) := by
  induction l with
  | nil => simp [findConflict]
  | cons iv rest ih =>
    simp only [findConflict]
    cases h : overlapsB s e iv with
    | true =>
      simp only [if_pos h]
      constructor
      · intro hfalse
        cases hfalse
      · intro hall
        exact absurd ((overlapsB_iff s e iv).mp h) (hall iv (List.mem_cons_self _ _))
    | false =>
      simp only [Bool.false_eq_true, if_false, ih]
      constructor
      · intro hall iv' hiv'
        rcases List.mem_cons.mp hiv' with hrfl | hmem
        · rw [hrfl]
          intro hcon
          exact absurd ((overlapsB_iff s e iv).mpr hcon) (by simp [h])
        · exact hall iv' hmem
      · intro hall iv' hiv'
        exact hall iv' (List.mem_cons_of_mem _ hiv')

theorem findConflict_some {s e : Int} {l : List (Int × Int)} {c : Int × Int}
    (h : findConflict s e l = some c) : c ∈ l ∧ s < c.2 ∧ c.1 < e := by
  induction l with
  | nil => cases h
  | cons iv rest ih =>
    simp only [findConflict] at h
    cases hov : overlapsB s e iv with
    | true =>
      rw [if_pos hov] at h
      cases h
      exact ⟨List.mem_cons_self _ _, (overlapsB_iff _ _ _).mp hov⟩
    | false =>
      rw [hov] at h
      simp only [Bool.false_eq_true, if_false] at h
      obtain ⟨hm, hrest⟩ := ih h
      exact ⟨List.mem_cons_of_mem _ hm, hrest⟩

/-- Strict version of `countP` monotonicity: a witness satisfying `q` but not `p`
forces a strict inequality. -/
theorem countP_lt_of_mem {α : Type} (p q : α → Bool) :
    ∀ l : List α, (∀ x ∈ l, p x = true → q x = true) →
      ∀ c ∈ l, q c = true → p c = false → l.countP p < l.countP q := by
  intro l
  induction l with
  | nil => intro _ c hc; cases hc
  | cons a t ih =>
    intro hmono c hc hqc hpc
    rw [List.countP_cons, List.countP_cons]
    have hle : t.countP p ≤ t.countP q :=
      List.countP_mono_left (fun x hx => hmono x (List.mem_cons_of_mem _ hx))
    rcases List.mem_cons.mp hc with hca | hct
    · rw [hca] at hqc hpc
      simp only [hqc, hpc, Bool.false_eq_true, if_true, if_false]
      omega
    · have hlt := ih (fun x hx => hmono x (List.mem_cons_of_mem _ hx)) c hct hqc hpc
      cases hpa : p a with
      | true =>
        have hqa := hmono a (List.mem_cons_self _ _) hpa
        simp only [hpa, hqa, if_true]
        omega
      | false =>
        cases hqa : q a <;>
          simp only [hpa, hqa, Bool.false_eq_true, if_true, if_false] <;> omega

/-- The scan loop of `_find_slot_in_gap` (src/app.py lines 373-384), with explicit
fuel.  `none` means the fuel ran out; `findSlotAux_total` shows
`intervals.length + 1` fuel always suffices, so the embedding below never hits it. -/
def findSlotAux (gap_end slot_delta : Int) (intervals : List (Int × Int)) :
    Nat → Int → Option (Option (Int × Int))
  | 0, _ => none
  | fuel + 1, start =>
    if start + slot_delta ≤ gap_end then
      match findConflict start (start + slot_delta) intervals with
      | none => some (some (start, start + slot_delta))
      | some c => findSlotAux gap_end slot_delta intervals fuel c.2
    else some none

theorem findSlotAux_total (ge delta : Int) (ivs : List (Int × Int)) :
    ∀ (fuel : Nat) (start : Int),
      ivs.countP (fun iv => decide (start < iv.2)) < fuel →
      ∃ r, findSlotAux ge delta ivs fuel start = some r := by
  intro fuel
  induction fuel with
  | zero => intro start h; omega
  | succ n ih =>
    intro start h
    simp only [findSlotAux]
    by_cases hle : start + delta ≤ ge
    · rw [if_pos hle]
      cases hc : findConflict start (start + delta) ivs with
      | none => exact ⟨_, rfl⟩
      | some c =>
        obtain ⟨hcmem, hs, _⟩ := findConflict_some hc
        apply ih
        have hstrict := countP_lt_of_mem
          (fun iv => decide (c.2 < iv.2)) (fun iv => decide (start < iv.2)) ivs
          (fun x _ hpx => by
            simp only [decide_eq_true_eq] at hpx ⊢
            omega)
          c hcmem (by simp only [decide_eq_true_eq]; exact hs) (by simp)
        omega
    · rw [if_neg hle]
      exact ⟨_, rfl⟩

theorem findSlotAux_sound (ge delta : Int) (ivs : List (Int × Int)) :
    ∀ (fuel : Nat) (start s e : Int),
      findSlotAux ge delta ivs fuel start = some (some (s, e)) →
      e = s + delta ∧ start ≤ s ∧ e ≤ ge ∧ findConflict s e ivs = none := by
  intro fuel
  induction fuel with
  | zero => intro start s e h; cases h
  | succ n ih =>
    intro start s e h
    simp only [findSlotAux] at h
    by_cases hle : start + delta ≤ ge
    · rw [if_pos hle] at h
      cases hc : findConflict start (start + delta) ivs with
      | none =>
        rw [hc] at h
        cases h
        exact ⟨rfl, le_refl _, hle, hc⟩
      | some c =>
        rw [hc] at h
        obtain ⟨he, hs, hge, hnone⟩ := ih c.2 s e h
        obtain ⟨_, hstart, _⟩ := findConflict_some hc
        exact ⟨he, le_trans (le_of_lt hstart) hs, hge, hnone⟩
    · rw [if_neg hle] at h
      cases h

/-- `_find_slot_in_gap` (src/app.py lines 367-384). -/
def find_slot_in_gap (gap_start gap_end slot_minutes : Int)
    (intervals : List (Int × Int)) : Option (Int × Int) :=
  (findSlotAux gap_end (slot_minutes * 60) intervals (intervals.length + 1) gap_start).join

theorem find_slot_in_gap_eq (gs ge sm : Int) (ivs : List (Int × Int)) :
    ∃ r : Option (Int × Int),
      findSlotAux ge (sm * 60) ivs (ivs.length + 1) gs = some r ∧
      find_slot_in_gap gs ge sm ivs = r := by
  obtain ⟨r, hr⟩ := findSlotAux_total ge (sm * 60) ivs (ivs.length + 1) gs
    (Nat.lt_succ_of_le (List.countP_le_length _))
  refine ⟨r, hr, ?_⟩
  rw [find_slot_in_gap, hr]
  rfl

theorem find_slot_in_gap_sound {gs ge sm : Int} {ivs : List (Int × Int)} {s e : Int}
    (h : find_slot_in_gap gs ge sm ivs = some (s, e)) :
    e = s + sm * 60 ∧ gs ≤ s ∧ e ≤ ge ∧ ∀ iv ∈ ivs, ¬(s < iv.2 ∧ iv.1 < e) := by
  obtain ⟨r, hr, heq⟩ := find_slot_in_gap_eq gs ge sm ivs
  rw [heq] at h
  rw [h] at hr
  obtain ⟨he, hgs, hge, hnone⟩ := findSlotAux_sound ge (sm * 60) ivs _ gs s e hr
  exact ⟨he, hgs, hge, findConflict_eq_none.mp hnone⟩

/-- C10 (status: confirmed).  The conflict-avoidance scan of `_find_slot_in_gap`
terminates for every gap, positive slot length and finite interval list: fuel
`intervals.length + 1` is enough for the loop to return a definite answer (each
conflict jump strictly shrinks the set of intervals whose end lies beyond the
candidate start), and the answer is either `none` or a conflict-free slot of the
required length inside the gap. -/
theorem find_slot_in_gap_terminates (gs ge sm : Int) (ivs : List (Int × Int))
    (_hsm : 0 < sm) :
    ∃ r : Option (Int × Int),
      findSlotAux ge (sm * 60) ivs (ivs.length + 1) gs = some r ∧
      find_slot_in_gap gs ge sm ivs = r ∧
      ∀ s e : Int, r = some (s, e) →
        e = s + sm * 60 ∧ gs ≤ s ∧ e ≤ ge ∧ ∀ iv ∈ ivs, ¬(s < iv.2 ∧ iv.1 < e) := by
  obtain ⟨r, hr, heq⟩ := find_slot_in_gap_eq gs ge sm ivs
  refine ⟨r, hr, heq, fun s e hse => ?_⟩
  rw [hse] at heq
  exact find_slot_in_gap_sound heq

/-- Witness for C10: a 10-minute slot in the 9:00-9:40 gap, with one booked
interval at 9:00-9:10, lands at 9:10-9:20 after one conflict jump. -/
theorem find_slot_in_gap_terminates_witness :
    (0 : Int) < 10 ∧
    ∃ r : Option (Int × Int),
      findSlotAux 34800 (10 * 60) [(32400, 33000)] 2 32400 = some r ∧
      find_slot_in_gap 32400 34800 10 [(32400, 33000)] = r ∧
      ∀ s e : Int, r = some (s, e) →
        e = s + 10 * 60 ∧ 32400 ≤ s ∧ e ≤ 34800 ∧
          ∀ iv ∈ [((32400 : Int), (33000 : Int))], ¬(s < iv.2 ∧ iv.1 < e) :=
  ⟨by decide, find_slot_in_gap_terminates 32400 34800 10 [(32400, 33000)] (by decide)⟩

/-! ### The no-show rescheduler (`generate_no_show_schedule`) -/

/-- A no-show suggestion (`_build_no_show_suggestion`, src/app.py lines 320-337):
a team plus its ranked gaps.  The `judge_id: None` field is dropped (never read
by the engine), and gap times are kept as integers instead of ISO strings. -/
structure Suggestion where
  team : String
  gaps : List Gap
deriving DecidableEq

/-- A rescheduled slot dictionary as committed on src/app.py lines 675-684. -/
structure Placed where
  judge_id : Int
  start : Int
  end_ : Int
  team : String
  status : String
  between : String
deriving DecidableEq

/-- Ascending lexicographic order on interval pairs (Python tuple `sort`). -/
def pairAscLe (a b : Int × Int) : Bool :=
  decide (a.1 < b.1) || (decide (a.1 = b.1) && decide (a.2 ≤ b.2))

/-- `_collect_judge_intervals` (src/app.py lines 353-364) as a per-judge lookup:
slots with a falsy (zero) judge id are skipped, each judge's interval list is
sorted. -/
def collect_judge_intervals (slots : List Slot) : Int → List (Int × Int) :=
  fun j => sortLe pairAscLe
    ((slots.filter (fun s => !decide (s.judge_id = 0) && decide (s.judge_id = j))).map
      (fun s => (s.start, s.end_)))

/-- The loop body of `_find_best_slot_for_judge` (src/app.py lines 394-403):
shrink the gap by the damping offset on both ends, skip it when nothing is left,
and keep the candidate with the earliest start. -/
def bestGapStep (slot_minutes damp_delta : Int) (intervals : List (Int × Int))
    (best : Option (Int × Int × Gap)) (gap : Gap) : Option (Int × Int × Gap) :=
  if gap.end_ - damp_delta ≤ gap.start + damp_delta then best
  else
    match find_slot_in_gap (gap.start + damp_delta) (gap.end_ - damp_delta)
        slot_minutes intervals with
    | none => best
    | some c =>
      match best with
      | none => some (c.1, c.2, gap)
      | some b => if c.1 < b.1 then some (c.1, c.2, gap) else best

/-- `_find_best_slot_for_judge` (src/app.py lines 387-404). -/
def find_best_slot_for_judge (gaps : List Gap) (slot_minutes : Int)
    (intervals : List (Int × Int)) (damp_delta : Int) :
    Option (Int × Int × Gap) :=
  gaps.foldl (bestGapStep slot_minutes damp_delta intervals) none

/-- `[s.get("team") for s in state.get("no_show_suggestions", []) if s.get("team")]`
(src/app.py line 626); a missing/empty team is falsy. -/
def noShowTeams (suggestions : List Suggestion) : List String :=
  (suggestions.map Suggestion.team).filter (fun t => !decide (t = ""))

/-- The per-judge target quotas of `generate_no_show_schedule` (src/app.py lines
632-638): `target_per_judge = max(1, n // judge_pairs)` plus one for the judges
drawn by `random.sample` (the `extra_judges` parameter).  Python raises
`ZeroDivisionError` when `judge_pairs == 0`; all theorems assume
`1 ≤ judge_pairs`. -/
def noShowJudgeTargets (n judge_pairs : Nat) (extra_judges : List Int) : Int → Nat :=
  fun j => max 1 (n / judge_pairs) + (if j ∈ extra_judges then 1 else 0)

/-- Pointwise update of a map, modelling a Python dict entry assignment. -/
def upd {β : Type} (f : Int → β) (j : Int) (v : β) : Int → β :=
  fun x => if x = j then v else f x

theorem upd_same {β : Type} (f : Int → β) (j : Int) (v : β) : upd f j v j = v := by
  simp [upd]

theorem upd_other {β : Type} (f : Int → β) (j x : Int) (v : β) (h : ¬x = j) :
    upd f j v x = f x := by
  simp [upd, h]

/-- The per-judge body of the best-judge selection loops (src/app.py lines
646-654 and 656-663): skip disallowed judges, keep the judge whose candidate has
the strictly earliest start. -/
def bestJudgeStep (gaps : List Gap) (slot_minutes damp : Int)
    (imap : Int → List (Int × Int)) (allowed : Int → Bool)
    (best : Option (Int × (Int × Int × Gap))) (j : Int) :
    Option (Int × (Int × Int × Gap)) :=
  if allowed j then
    match find_best_slot_for_judge gaps slot_minutes (imap j) damp with
    | none => best
    | some c =>
      match best with
      | none => some (j, c)
      | some b => if c.1 < b.2.1 then some (j, c) else best
  else best

/-- One pass of the best-judge selection loops of `generate_no_show_schedule`
(first pass lines 646-654 with the quota filter, fallback pass lines 656-663 with
`allowed` constantly true). -/
def selectBest (gaps : List Gap) (slot_minutes damp : Int)
    (imap : Int → List (Int × Int)) (ids : List Int) (allowed : Int → Bool) :
    Option (Int × (Int × Int × Gap)) :=
  ids.foldl (bestJudgeStep gaps slot_minutes damp imap allowed) none

/-- Accumulator of the per-suggestion loop: the judges' committed intervals, the
per-judge placement counts, and the rescheduled slots committed so far. -/
structure NSAcc where
  imap : Int → List (Int × Int)
  counts : Int → Nat
  placed : List Placed

/-- The chosen judge and candidate for one suggestion: the quota-restricted pass
(src/app.py lines 646-654), then the quota-ignoring fallback pass (lines
656-663). -/
def noShowBest (slot_minutes damp : Int) (ids : List Int) (targets : Int → Nat)
    (acc : NSAcc) (s : Suggestion) : Option (Int × (Int × Int × Gap)) :=
  match selectBest s.gaps slot_minutes damp acc.imap ids
      (fun j => decide (acc.counts j < targets j)) with
  | some b => some b
  | none => selectBest s.gaps slot_minutes damp acc.imap ids (fun _ => true)

/-- The body of the per-suggestion loop of `generate_no_show_schedule`
(src/app.py lines 640-684): skip falsy teams and empty gap lists, otherwise
commit the chosen slot, registering its interval and bumping the judge's count. -/
def noShowStep (slot_minutes damp : Int) (ids : List Int) (targets : Int → Nat)
    (acc : NSAcc) (s : Suggestion) : NSAcc :=
  if s.team = "" ∨ s.gaps = [] then acc
  else
    match noShowBest slot_minutes damp ids targets acc s with
    | none => acc
    | some jc =>
      { imap := upd acc.imap jc.1
          (sortLe pairAscLe (acc.imap jc.1 ++ [(jc.2.1, jc.2.2.1)]))
        counts := upd acc.counts jc.1 (acc.counts jc.1 + 1)
        placed := acc.placed ++
          [⟨jc.1, jc.2.1, jc.2.2.1, s.team, "rescheduled", jc.2.2.2.between⟩] }

/-- The placement loop of `generate_no_show_schedule` (src/app.py lines 616-684),
from the configured slot length, block length (whose half is the damping offset)
and judge count, the base schedule's slots, the stored suggestions and the
`random.sample` draw. -/
def noShowCore (slot_minutes block_minutes : Int) (judge_pairs : Nat)
    (base_slots : List Slot) (suggestions : List Suggestion)
    (extra_judges : List Int) : List Placed :=
  let damp := if 0 < block_minutes then block_minutes * 30 else 0
  let ids := judgeIds judge_pairs
  let targets := noShowJudgeTargets (noShowTeams suggestions).length judge_pairs extra_judges
  (suggestions.foldl (noShowStep slot_minutes damp ids targets)
    ⟨collect_judge_intervals base_slots, fun _ => 0, []⟩).placed

/-! ### C4: conflict-freeness of the no-show rescheduler -/

theorem foldl_preserve {α β : Type} (P : β → Prop) (f : β → α → β) (l : List α)
    (init : β) (hinit : P init) (hstep : ∀ b a, P b → P (f b a)) :
    P (l.foldl f init) := by
  induction l generalizing init with
  | nil => exact hinit
  | cons x xs ih => exact ih _ (hstep init x hinit)

theorem bestGapStep_free {sm damp : Int} {ivs : List (Int × Int)}
    (best : Option (Int × Int × Gap)) (gap : Gap)
    (hbest : ∀ c : Int × Int × Gap, best = some c →
      ∀ iv ∈ ivs, ¬(c.1 < iv.2 ∧ iv.1 < c.2.1)) :
    ∀ c : Int × Int × Gap, bestGapStep sm damp ivs best gap = some c →
      ∀ iv ∈ ivs, ¬(c.1 < iv.2 ∧ iv.1 < c.2.1) := by
  intro c hc iv hiv
  rw [bestGapStep] at hc
  split at hc
  · exact hbest c hc iv hiv
  · split at hc
    · exact hbest c hc iv hiv
    · next cand heq =>
      split at hc
      · cases hc
        obtain ⟨_, _, _, hfree⟩ := find_slot_in_gap_sound heq
        exact hfree iv hiv
      · split at hc
        · cases hc
          obtain ⟨_, _, _, hfree⟩ := find_slot_in_gap_sound heq
          exact hfree iv hiv
        · exact hbest c hc iv hiv

theorem find_best_slot_for_judge_sound {gaps : List Gap} {sm : Int}
    {ivs : List (Int × Int)} {damp : Int} {c : Int × Int × Gap}
    (h : find_best_slot_for_judge gaps sm ivs damp = some c) :
    ∀ iv ∈ ivs, ¬(c.1 < iv.2 ∧ iv.1 < c.2.1) := by
  have hinv := foldl_preserve
    (fun best => ∀ c' : Int × Int × Gap, best = some c' →
      ∀ iv ∈ ivs, ¬(c'.1 < iv.2 ∧ iv.1 < c'.2.1))
    (bestGapStep sm damp ivs) gaps none (fun c' hc' => by cases hc')
    (fun best gap hbest => bestGapStep_free best gap hbest)
  exact hinv c h

theorem bestJudgeStep_sound {gaps : List Gap} {sm damp : Int}
    {imap : Int → List (Int × Int)} {allowed : Int → Bool}
    (best : Option (Int × (Int × Int × Gap))) (a : Int)
    (hbest : ∀ (j : Int) (c : Int × Int × Gap), best = some (j, c) →
      find_best_slot_for_judge gaps sm (imap j) damp = some c) :
    ∀ (j : Int) (c : Int × Int × Gap),
      bestJudgeStep gaps sm damp imap allowed best a = some (j, c) →
      find_best_slot_for_judge gaps sm (imap j) damp = some c := by
  intro j c hc
  rw [bestJudgeStep] at hc
  split at hc
  · split at hc
    · exact hbest j c hc
    · next cand heq =>
      split at hc
      · cases hc
        exact heq
      · split at hc
        · cases hc
          exact heq
        · exact hbest j c hc
  · exact hbest j c hc

theorem selectBest_sound {gaps : List Gap} {sm damp : Int}
    {imap : Int → List (Int × Int)} {ids : List Int} {allowed : Int → Bool}
    {j : Int} {c : Int × Int × Gap}
    (h : selectBest gaps sm damp imap ids allowed = some (j, c)) :
    find_best_slot_for_judge gaps sm (imap j) damp = some c := by
  have hinv := foldl_preserve
    (fun best => ∀ (j' : Int) (c' : Int × Int × Gap), best = some (j', c') →
      find_best_slot_for_judge gaps sm (imap j') damp = some c')
    (bestJudgeStep gaps sm damp imap allowed) ids none
    (fun j' c' hc' => by cases hc')
    (fun best a hbest => bestJudgeStep_sound best a hbest)
  exact hinv j c h

theorem noShowBest_sound {sm damp : Int} {ids : List Int} {targets : Int → Nat}
    {acc : NSAcc} {s : Suggestion} {jc : Int × (Int × Int × Gap)}
    (h : noShowBest sm damp ids targets acc s = some jc) :
    find_best_slot_for_judge s.gaps sm (acc.imap jc.1) damp = some jc.2 := by
  rw [noShowBest] at h
  split at h
  · next b hsel1 =>
    cases h
    exact selectBest_sound hsel1
  · exact selectBest_sound h

/-- The invariant of the placement loop: the base intervals stay registered in
the per-judge interval map, every committed slot's interval is registered under
its judge, and the committed slots conflict neither with the base intervals nor
with each other on the same judge. -/
def nsInv (base : Int → List (Int × Int)) (acc : NSAcc) : Prop :=
  (∀ j, ∀ iv ∈ base j, iv ∈ acc.imap j) ∧
  (∀ p ∈ acc.placed, (p.start, p.end_) ∈ acc.imap p.judge_id) ∧
  (∀ p ∈ acc.placed, ∀ iv ∈ base p.judge_id, ¬(p.start < iv.2 ∧ iv.1 < p.end_)) ∧
  acc.placed.Pairwise
    (fun p q => p.judge_id = q.judge_id → ¬(p.start < q.end_ ∧ q.start < p.end_))

theorem noShowStep_inv (sm damp : Int) (ids : List Int) (targets : Int → Nat)
    (base : Int → List (Int × Int)) (acc : NSAcc) (s : Suggestion)
    (h : nsInv base acc) : nsInv base (noShowStep sm damp ids targets acc s) := by
  obtain ⟨hbase, hreg, hfree, hpw⟩ := h
  rw [noShowStep]
  by_cases hskip : s.team = "" ∨ s.gaps = []
  · rw [if_pos hskip]
    exact ⟨hbase, hreg, hfree, hpw⟩
  · rw [if_neg hskip]
    cases hjc : noShowBest sm damp ids targets acc s with
    | none => exact ⟨hbase, hreg, hfree, hpw⟩
    | some jc =>
      have hfb := noShowBest_sound hjc
      have hconf : ∀ iv ∈ acc.imap jc.1, ¬(jc.2.1 < iv.2 ∧ iv.1 < jc.2.2.1) :=
        find_best_slot_for_judge_sound hfb
      have hmemV : ∀ iv : Int × Int,
          iv ∈ sortLe pairAscLe (acc.imap jc.1 ++ [(jc.2.1, jc.2.2.1)]) ↔
          iv ∈ acc.imap jc.1 ∨ iv = (jc.2.1, jc.2.2.1) := by
        intro iv
        rw [mem_sortLe, List.mem_append, List.mem_singleton]
      refine ⟨?_, ?_, ?_, ?_⟩
      · intro j iv hiv
        dsimp only
        by_cases hj : j = jc.1
        · subst hj
          rw [upd_same, hmemV]
          exact Or.inl (hbase _ iv hiv)
        · rw [upd_other _ _ _ _ hj]
          exact hbase j iv hiv
      · intro p hp
        dsimp only at hp ⊢
        rcases List.mem_append.mp hp with hold | hnew
        · by_cases hj : p.judge_id = jc.1
          · rw [hj, upd_same, hmemV]
            exact Or.inl (hj ▸ hreg p hold)
          · rw [upd_other _ _ _ _ hj]
            exact hreg p hold
        · rcases List.mem_singleton.mp hnew with rfl
          dsimp only
          rw [upd_same, hmemV]
          exact Or.inr rfl
      · intro p hp
        dsimp only at hp
        rcases List.mem_append.mp hp with hold | hnew
        · exact hfree p hold
        · rcases List.mem_singleton.mp hnew with rfl
          dsimp only
          intro iv hiv hc
          exact hconf iv (hbase jc.1 iv hiv) hc
      · dsimp only
        rw [List.pairwise_append]
        refine ⟨hpw, List.pairwise_singleton _ _, ?_⟩
        intro p hp b hb
        rcases List.mem_singleton.mp hb with rfl
        dsimp only
        intro hj hc
        have hj' : p.judge_id = jc.1 := hj
        have hivmem : (p.start, p.end_) ∈ acc.imap jc.1 := hj' ▸ hreg p hp
        exact hconf (p.start, p.end_) hivmem ⟨hc.2, hc.1⟩

/-- C4 (status: confirmed).  Every slot committed by the no-show rescheduler is
conflict-free under the half-open overlap test against all intervals already
committed for the chosen judge: it does not overlap any base-schedule interval
of that judge, and no two rescheduled slots of the same judge overlap. -/
theorem noshow_slots_conflict_free (sm bm : Int) (judge_pairs : Nat)
    (base_slots : List Slot) (suggestions : List Suggestion)
    (extra_judges : List Int) :
    (∀ p ∈ noShowCore sm bm judge_pairs base_slots suggestions extra_judges,
      ∀ iv ∈ collect_judge_intervals base_slots p.judge_id,
        ¬(p.start < iv.2 ∧ iv.1 < p.end_)) ∧
    (noShowCore sm bm judge_pairs base_slots suggestions extra_judges).Pairwise
      (fun p q => p.judge_id = q.judge_id →
        ¬(p.start < q.end_ ∧ q.start < p.end_)) := by
  have hinv := foldl_preserve (nsInv (collect_judge_intervals base_slots))
    (noShowStep sm (if 0 < bm then bm * 30 else 0) (judgeIds judge_pairs)
      (noShowJudgeTargets (noShowTeams suggestions).length judge_pairs extra_judges))
    suggestions
    ⟨collect_judge_intervals base_slots, fun _ => 0, []⟩
    ⟨fun _ _ hiv => hiv, fun p hp => absurd hp (List.not_mem_nil _),
      fun p hp => absurd hp (List.not_mem_nil _), List.Pairwise.nil⟩
    (fun acc s hacc => noShowStep_inv _ _ _ _ _ acc s hacc)
  exact ⟨hinv.2.2.1, hinv.2.2.2⟩

/-- Witness for C4 at a concrete run: one no-show rescheduled around a booked
base slot. -/
theorem noshow_slots_conflict_free_witness :
    (∀ p ∈ noShowCore 10 0 1 [⟨1, 32400, 33000, some "7", "scheduled"⟩]
        [⟨"101", [⟨32400, 34800, 40, "Q1 and Q2"⟩]⟩] [],
      ∀ iv ∈ collect_judge_intervals [⟨1, 32400, 33000, some "7", "scheduled"⟩] p.judge_id,
        ¬(p.start < iv.2 ∧ iv.1 < p.end_)) ∧
    (noShowCore 10 0 1 [⟨1, 32400, 33000, some "7", "scheduled"⟩]
        [⟨"101", [⟨32400, 34800, 40, "Q1 and Q2"⟩]⟩] []).Pairwise
      (fun p q => p.judge_id = q.judge_id →
        ¬(p.start < q.end_ ∧ q.start < p.end_)) :=
  noshow_slots_conflict_free 10 0 1 [⟨1, 32400, 33000, some "7", "scheduled"⟩]
    [⟨"101", [⟨32400, 34800, 40, "Q1 and Q2"⟩]⟩] []

/-! ### C2: the no-show quota computation -/

theorem judgeIds_nodup (judge_pairs : Nat) : (judgeIds judge_pairs).Nodup := by
  rw [judgeIds]
  refine List.Nodup.map ?_ (List.nodup_range judge_pairs)
  intro a b hab
  have hab' : (a : Int) + 1 = (b : Int) + 1 := hab
  omega

theorem judgeIds_length (judge_pairs : Nat) :
    (judgeIds judge_pairs).length = judge_pairs := by
  rw [judgeIds, List.length_map, List.length_range]

theorem judgeIds_mem (judge_pairs : Nat) (j : Int) :
    j ∈ judgeIds judge_pairs ↔ 1 ≤ j ∧ j ≤ (judge_pairs : Int) := by
  rw [judgeIds]
  simp only [List.mem_map, List.mem_range]
  constructor
  · rintro ⟨i, hi, rfl⟩
    omega
  · intro hj
    exact ⟨(j - 1).toNat, by omega, by omega⟩

theorem countP_mem_eq_length {ids extra : List Int}
    (hids : ids.Nodup) (hnd : extra.Nodup) (hsub : extra ⊆ ids) :
    ids.countP (fun j => decide (j ∈ extra)) = extra.length := by
  rw [List.countP_eq_length_filter]
  have hperm : (ids.filter (fun j => decide (j ∈ extra))).Perm extra := by
    apply List.perm_of_nodup_nodup_toFinset_eq (hids.filter _) hnd
    ext x
    simp only [List.mem_toFinset, List.mem_filter, decide_eq_true_eq]
    exact ⟨fun hx => hx.2, fun hx => ⟨hsub hx, hx⟩⟩
  exact hperm.length_eq

theorem sum_map_base_ite (ids : List Int) (b : Nat) (extra : List Int) :
    (ids.map (fun j => b + (if j ∈ extra then 1 else 0))).sum
      = ids.length * b + ids.countP (fun j => decide (j ∈ extra)) := by
  induction ids with
  | nil => simp
  | cons a t ih =>
    simp only [List.map_cons, List.sum_cons, List.countP_cons, List.length_cons, ih]
    rw [Nat.succ_mul]
    by_cases ha : a ∈ extra
    · simp only [ha, decide_True, if_true]
      omega
    · simp only [ha, decide_False, Bool.false_eq_true, if_false]
      omega

/-- C2 counterexample: with one no-show team and two judges, the code's quotas
(`max(1, 1 // 2) = 1` base, one judge drawn for `+1`) sum to 3, not to the
claimed `N = 1`, and the base is not `N div J = 0`.  The draw `extra = [1]` is a
possible outcome of `random.sample([1, 2], 1 % 2)`. -/
theorem noshow_quota_mismatch_cex :
    ([1] : List Int).Nodup ∧ ([1] : List Int) ⊆ judgeIds 2 ∧
    ([1] : List Int).length = 1 % 2 ∧
    ((judgeIds 2).map (noShowJudgeTargets 1 2 [1])).sum = 3 ∧ (3 : Nat) ≠ 1 ∧
    noShowJudgeTargets 1 2 [1] 1 = 2 ∧ ¬max 1 (1 / 2) = 1 / 2 := by
  decide

/-- C2 (status: corrected).  `generate_no_show_schedule` computes per-judge
quotas with base `max(1, N // J)` (not `N div J` as in `_assign_slots_balanced_random`),
plus one for each of the `N mod J` sampled judges.  The quotas sum to
`J * max(1, N div J) + N mod J`; this equals `N` (and agrees with section 4.3's
computation) exactly when `N ≥ J`, while for `0 < N < J` the base is clamped to
1 and the quotas sum to `J + N > N`. -/
theorem noshow_quota_sum (n judge_pairs : Nat) (extra : List Int)
    (hJ : 1 ≤ judge_pairs) (hnd : extra.Nodup) (hsub : extra ⊆ judgeIds judge_pairs)
    (hlen : extra.length = n % judge_pairs) :
    ((judgeIds judge_pairs).map (noShowJudgeTargets n judge_pairs extra)).sum
      = judge_pairs * max 1 (n / judge_pairs) + n % judge_pairs ∧
    (judge_pairs ≤ n →
      max 1 (n / judge_pairs) = n / judge_pairs ∧
      ((judgeIds judge_pairs).map (noShowJudgeTargets n judge_pairs extra)).sum = n) ∧
    (0 < n → n < judge_pairs →
      ((judgeIds judge_pairs).map (noShowJudgeTargets n judge_pairs extra)).sum
        = judge_pairs + n) := by
  have hsum : ((judgeIds judge_pairs).map (noShowJudgeTargets n judge_pairs extra)).sum
      = judge_pairs * max 1 (n / judge_pairs) + n % judge_pairs := by
    rw [show noShowJudgeTargets n judge_pairs extra
        = fun j => max 1 (n / judge_pairs) + (if j ∈ extra then 1 else 0) from rfl]
    rw [sum_map_base_ite,
      countP_mem_eq_length (judgeIds_nodup judge_pairs) hnd hsub, hlen,
      judgeIds_length]
  refine ⟨hsum, ?_, ?_⟩
  · intro hJn
    have hq : 1 ≤ n / judge_pairs := (Nat.one_le_div_iff (by omega)).mpr hJn
    have hmax : max 1 (n / judge_pairs) = n / judge_pairs := by omega
    refine ⟨hmax, ?_⟩
    rw [hsum, hmax]
    have hdm := Nat.div_add_mod n judge_pairs
    omega
  · intro hn hnJ
    have hdiv : n / judge_pairs = 0 := Nat.div_eq_of_lt hnJ
    have hmod : n % judge_pairs = n := Nat.mod_eq_of_lt hnJ
    have hone : max 1 (0 : Nat) = 1 := by decide
    rw [hsum, hdiv, hmod, hone]
    omega

/-- Witness for C2's amended theorem at `N = 5`, `J = 2`, draw `extra = [2]`. -/
theorem noshow_quota_sum_witness :
    (1 ≤ 2 ∧ ([2] : List Int).Nodup ∧ ([2] : List Int) ⊆ judgeIds 2 ∧
      ([2] : List Int).length = 5 % 2) ∧
    (((judgeIds 2).map (noShowJudgeTargets 5 2 [2])).sum
        = 2 * max 1 (5 / 2) + 5 % 2 ∧
      (2 ≤ 5 →
        max 1 (5 / 2) = 5 / 2 ∧
        ((judgeIds 2).map (noShowJudgeTargets 5 2 [2])).sum = 5) ∧
      (0 < 5 → 5 < 2 →
        ((judgeIds 2).map (noShowJudgeTargets 5 2 [2])).sum = 2 + 5)) :=
  ⟨⟨by decide, by decide, by decide, by decide⟩,
    noshow_quota_sum 5 2 [2] (by decide) (by decide) (by decide) (by decide)⟩

/-! ### The persisted state and the endpoint operations -/

/-- A schedule version (`_build_schedule_version`, src/app.py lines 216-230);
`label`, `type`, `file` and `created_at` are bookkeeping never read by the
operations verified here and are omitted. -/
structure Schedule where
  id : String
  slots : List Slot
deriving DecidableEq

/-- The `config` block written by `generate` (src/app.py lines 468-475),
restricted to the fields `generate_no_show_schedule` reads. -/
structure Config where
  slot_minutes : Int
  judge_pairs : Nat
  block_minutes : Int
deriving DecidableEq

/-- The persisted state blob (`state.json`), restricted to the fields the
verified operations read or write.  Match-entry times are kept as integers
rather than ISO strings. -/
structure State where
  config : Config
  locked : Bool
  noshow_locked : Bool
  slots : List Slot
  active_schedule_id : Option String
  schedules : List Schedule
  no_shows : List String
  no_show_suggestions : List Suggestion
  last_suggestions : Option Suggestion
  team_matches : List (String × List MatchEntry)
  team_times : List (String × List Int)
deriving DecidableEq

/-- `_get_active_schedule` (src/app.py lines 233-240); a missing or empty id is
falsy. -/
def get_active_schedule (st : State) : Option Schedule :=
  match st.active_schedule_id with
  | none => none
  | some aid =>
    if aid = "" then none else st.schedules.find? (fun sch => sch.id == aid)

/-- The base slots used to seed the interval index (src/app.py line 623). -/
def baseSlotsOf (st : State) : List Slot :=
  match get_active_schedule st with
  | some sch => sch.slots
  | none => st.slots

/-- The `HTTPException(400)` outcomes of `generate_no_show_schedule`: the
print-lock guard (line 614), the empty no-show list guard (line 628), and the
spec's `NoFeasibleSlot` (line 687). -/
inductive NoShowErr where
  | locked
  | noTeams
  | noFeasible
deriving DecidableEq

/-- `generate_no_show_schedule` (src/app.py lines 611-698), returning the
committed rescheduled slots.  The surrounding schedule-version upsert and state
save (lines 689-698) are persistence bookkeeping outside the claims. -/
def generate_no_show_schedule (st : State) (extra_judges : List Int) :
    Except NoShowErr (List Placed) :=
  if st.noshow_locked then .error .locked
  else if noShowTeams st.no_show_suggestions = [] then .error .noTeams
  else
    let placed := noShowCore st.config.slot_minutes st.config.block_minutes
      st.config.judge_pairs (baseSlotsOf st) st.no_show_suggestions extra_judges
    if placed = [] then .error .noFeasible else .ok placed

/-- First-match status update of `_update_slot_status`'s slot loops (src/app.py
lines 279-283 and 289-292): set `status` on the first slot whose `team` equals
the given team, and report that slot's judge id. -/
def set_first_status : List Slot → String → String → List Slot × Option Int
  | [], _, _ => ([], none)
  | s :: rest, team, status =>
    if s.team = some team then ({ s with status := status } :: rest, some s.judge_id)
    else
      let r := set_first_status rest team status
      (s :: r.1, r.2)

/-- `_update_slot_status` (src/app.py lines 277-293): update the first matching
slot of the active slot list and of every schedule whose id equals the (truthy)
active id. -/
def update_slot_status (st : State) (team status : String) : State × Option Int :=
  let r := set_first_status st.slots team status
  let schedules' :=
    match st.active_schedule_id with
    | none => st.schedules
    | some aid =>
      if aid = "" then st.schedules
      else st.schedules.map (fun sch =>
        if sch.id = aid then
          { sch with slots := (set_first_status sch.slots team status).1 }
        else sch)
  ({ st with slots := r.1, schedules := schedules' }, r.2)

/-- The 400 (missing team) and 404 (team not found) outcomes of `checkoff` and
`no_show`. -/
inductive ApiErr where
  | missingTeam
  | notFound
deriving DecidableEq

/-- The `last_suggestions` pop of `checkoff` (src/app.py lines 517-518): popped
when it belongs to the team, kept otherwise (an absent value stays absent). -/
def popLastSuggestion (ls : Option Suggestion) (team : String) : Option Suggestion :=
  match ls with
  | some sug => if sug.team = team then none else some sug
  | none => none

/-- The cleanup `checkoff` performs after a successful status update (src/app.py
lines 513-518): drop the team from `no_shows` and `no_show_suggestions` and pop
its `last_suggestions` entry. -/
def checkoffApply (st1 : State) (team : String) : State :=
  { st1 with
    no_shows := st1.no_shows.filter (fun t => !decide (t = team))
    no_show_suggestions :=
      st1.no_show_suggestions.filter (fun s => !decide (s.team = team))
    last_suggestions := popLastSuggestion st1.last_suggestions team }

/-- `checkoff` (src/app.py lines 505-521): mark the team's slot `checked`, drop
the team from `no_shows` and `no_show_suggestions`, pop `last_suggestions` when
it is the team's, 404 when no slot holds the team. -/
def checkoff (st : State) (team : String) : Except ApiErr State :=
  if team = "" then .error .missingTeam
  else
    match (update_slot_status st team "checked").2 with
    | some _ => .ok (checkoffApply (update_slot_status st team "checked").1 team)
    | none => .error .notFound

/-- Python `dict.get` over the JSON objects `team_matches` / `team_times`. -/
def lookupStr {β : Type} (key : String) : List (String × β) → Option β
  | [] => none
  | kv :: rest => if kv.1 = key then some kv.2 else lookupStr key rest

/-- `_normalize_match_entries` (src/app.py lines 340-350): sort ascending by
time (ISO parsing elided). -/
def normalize_match_entries (entries : List MatchEntry) : List MatchEntry :=
  sortLe (fun a b => decide (a.time ≤ b.time)) entries

/-- `_build_no_show_suggestion` (src/app.py lines 320-337). -/
def build_no_show_suggestion (team : String) (team_matches : List MatchEntry) :
    Suggestion :=
  ⟨team, compute_gaps_sorted team_matches⟩

/-- The match entries `no_show` builds the suggestion from (src/app.py lines
534-539): the team's `team_matches`, falling back to `team_times` with label
`"Match"` when empty.  (`_update_slot_status` touches neither dictionary, so
reading them from the pre-update state is equal.) -/
def noShowEntries (st : State) (team : String) : List MatchEntry :=
  if (lookupStr team st.team_matches).getD [] = [] then
    ((lookupStr team st.team_times).getD []).map (fun t => MatchEntry.mk t "Match")
  else normalize_match_entries ((lookupStr team st.team_matches).getD [])

/-- `no_show` (src/app.py lines 524-549): mark the team's slot `no-show`
(ignoring whether one was found), append to `no_shows`, rebuild the team's
suggestion from `team_matches` (falling back to `team_times`) and store it. -/
def no_show (st : State) (team : String) : Except ApiErr State :=
  if team = "" then .error .missingTeam
  else
    .ok { (update_slot_status st team "no-show").1 with
      no_shows := (update_slot_status st team "no-show").1.no_shows ++ [team]
      no_show_suggestions :=
        (update_slot_status st team "no-show").1.no_show_suggestions.filter
          (fun s => !decide (s.team = team)) ++
          [build_no_show_suggestion team (noShowEntries st team)]
      last_suggestions := some (build_no_show_suggestion team (noShowEntries st team)) }

/-- C6 (status: confirmed).  When `generate_no_show_schedule` is not locked and
has at least one (truthy) no-show team, it fails with `NoFeasibleSlot` if and
only if zero teams could be placed, and whenever at least one team was placed it
succeeds returning exactly the placed teams (unplaced teams are skipped, not
fatal). -/
theorem noshow_failure_iff_none_placed (st : State) (extra : List Int)
    (hlock : st.noshow_locked = false)
    (hteams : noShowTeams st.no_show_suggestions ≠ []) :
    (generate_no_show_schedule st extra = .error .noFeasible ↔
      noShowCore st.config.slot_minutes st.config.block_minutes st.config.judge_pairs
        (baseSlotsOf st) st.no_show_suggestions extra = []) ∧
    (noShowCore st.config.slot_minutes st.config.block_minutes st.config.judge_pairs
        (baseSlotsOf st) st.no_show_suggestions extra ≠ [] →
      generate_no_show_schedule st extra
        = .ok (noShowCore st.config.slot_minutes st.config.block_minutes
            st.config.judge_pairs (baseSlotsOf st) st.no_show_suggestions extra)) := by
  rw [generate_no_show_schedule, hlock]
  simp only [Bool.false_eq_true, if_false, if_neg hteams]
  by_cases hp : noShowCore st.config.slot_minutes st.config.block_minutes
      st.config.judge_pairs (baseSlotsOf st) st.no_show_suggestions extra = []
  · exact ⟨by simp [hp], fun hne => absurd hp hne⟩
  · exact ⟨by simp [hp], fun _ => by simp [hp]⟩

/-- A state with a single no-show suggestion whose only gap is 5 minutes, under a
10-minute slot length. -/
def c6State : State :=
  { config := ⟨10, 1, 0⟩
    locked := false
    noshow_locked := false
    slots := []
    active_schedule_id := none
    schedules := []
    no_shows := ["101"]
    no_show_suggestions := [⟨"101", [⟨0, 300, 5, "Q1 and Q2"⟩]⟩]
    last_suggestions := none
    team_matches := []
    team_times := [] }

/-- Witness for C6: the spec's 5-minute-gap scenario, as the only no-show, fails
the whole operation with `NoFeasibleSlot`. -/
theorem noshow_failure_iff_none_placed_witness :
    c6State.noshow_locked = false ∧
    noShowTeams c6State.no_show_suggestions ≠ [] ∧
    generate_no_show_schedule c6State [] = .error .noFeasible :=
  ⟨by decide, by decide,
    (noshow_failure_iff_none_placed c6State [] (by decide) (by decide)).1.mpr
      (by decide)⟩

/-! ### C7: marking a no-show for a team absent from the slots -/

theorem map_id_of_eq {α : Type} {l : List α} {f : α → α} (h : ∀ a ∈ l, f a = a) :
    l.map f = l := by
  induction l with
  | nil => rfl
  | cons a t ih =>
    rw [List.map_cons, h a (List.mem_cons_self _ _),
      ih (fun x hx => h x (List.mem_cons_of_mem _ hx))]

theorem set_first_status_nomatch {l : List Slot} {team : String} (status : String)
    (h : ∀ s ∈ l, s.team ≠ some team) :
    set_first_status l team status = (l, none) := by
  induction l with
  | nil => rfl
  | cons s rest ih =>
    rw [set_first_status, if_neg (h s (List.mem_cons_self _ _)),
      ih (fun x hx => h x (List.mem_cons_of_mem _ hx))]

theorem update_slot_status_nomatch {st : State} {team : String} (status : String)
    (h1 : ∀ s ∈ st.slots, s.team ≠ some team)
    (h2 : ∀ sch ∈ st.schedules, ∀ s ∈ sch.slots, s.team ≠ some team) :
    update_slot_status st team status = (st, none) := by
  rw [update_slot_status, set_first_status_nomatch status h1]
  have hsch : (match st.active_schedule_id with
      | none => st.schedules
      | some aid =>
        if aid = "" then st.schedules
        else st.schedules.map (fun sch =>
          if sch.id = aid then
            { sch with slots := (set_first_status sch.slots team status).1 }
          else sch)) = st.schedules := by
    cases st.active_schedule_id with
    | none => rfl
    | some aid =>
      dsimp only
      by_cases ha : aid = ""
      · rw [if_pos ha]
      · rw [if_neg ha]
        apply map_id_of_eq
        intro sch hs
        by_cases hid : sch.id = aid
        · rw [if_pos hid, set_first_status_nomatch status (h2 sch hs)]
        · rw [if_neg hid]
  rw [hsch]

/-- A state whose single slot belongs to team `"7"`; team `"999"` is absent. -/
def c7State : State :=
  { config := ⟨10, 1, 8⟩
    locked := false
    noshow_locked := false
    slots := [⟨1, 32400, 33000, some "7", "scheduled"⟩]
    active_schedule_id := none
    schedules := []
    no_shows := []
    no_show_suggestions := []
    last_suggestions := none
    team_matches := []
    team_times := [] }

/-- C7 counterexample: `no_show` for a team absent from every slot does NOT
return `NotFoundError`; it succeeds, records the team in `no_shows` and stores a
suggestion for it (`_update_slot_status`'s `None` result is ignored, unlike in
`checkoff`). -/
theorem no_show_absent_team_cex :
    c7State.slots.all (fun s => !decide (s.team = some "999")) = true ∧
    no_show c7State "999" =
      .ok { c7State with
        no_shows := ["999"]
        no_show_suggestions := [⟨"999", []⟩]
        last_suggestions := some ⟨"999", []⟩ } := by
  decide

/-- C7 (status: corrected).  `no_show` does not validate team presence: for
every nonempty team absent from the active slots and from every schedule
version's slots, the operation succeeds (no `NotFoundError`), leaves the slots
unchanged, appends the team to `no_shows`, and stores a fresh suggestion for the
team.  Only an empty team name is rejected. -/
theorem no_show_absent_team_succeeds (st : State) (team : String)
    (hteam : team ≠ "")
    (habs : ∀ s ∈ st.slots, s.team ≠ some team)
    (habs2 : ∀ sch ∈ st.schedules, ∀ s ∈ sch.slots, s.team ≠ some team) :
    ∃ sug : Suggestion, sug.team = team ∧
      no_show st team = .ok { st with
        no_shows := st.no_shows ++ [team]
        no_show_suggestions :=
          st.no_show_suggestions.filter (fun s => !decide (s.team = team)) ++ [sug]
        last_suggestions := some sug } := by
  refine ⟨build_no_show_suggestion team (noShowEntries st team), rfl, ?_⟩
  rw [no_show, if_neg hteam, update_slot_status_nomatch "no-show" habs habs2]

/-- Witness for C7's amended theorem at the concrete absent team `"999"`. -/
theorem no_show_absent_team_succeeds_witness :
    ("999" : String) ≠ "" ∧
    (∃ sug : Suggestion, sug.team = "999" ∧
      no_show c7State "999" = .ok { c7State with
        no_shows := c7State.no_shows ++ ["999"]
        no_show_suggestions :=
          c7State.no_show_suggestions.filter (fun s => !decide (s.team = "999"))
            ++ [sug]
        last_suggestions := some sug }) :=
  ⟨by decide,
    no_show_absent_team_succeeds c7State "999" (by decide) (by decide) (by decide)⟩

/-! ### C8: idempotence of `checkoff` -/

theorem set_first_status_idem (l : List Slot) (team status : String) :
    set_first_status (set_first_status l team status).1 team status
      = set_first_status l team status := by
  induction l with
  | nil => rfl
  | cons s rest ih =>
    by_cases h : s.team = some team
    · have e1 : set_first_status (s :: rest) team status
          = ({ s with status := status } :: rest, some s.judge_id) := by
        rw [set_first_status, if_pos h]
      rw [e1]
      show set_first_status ({ s with status := status } :: rest) team status
          = ({ s with status := status } :: rest, some s.judge_id)
      have h' : ({ s with status := status } : Slot).team = some team := h
      rw [set_first_status, if_pos h']
    · have e1 : set_first_status (s :: rest) team status
          = (s :: (set_first_status rest team status).1,
            (set_first_status rest team status).2) := by
        rw [set_first_status, if_neg h]
      rw [e1]
      show set_first_status (s :: (set_first_status rest team status).1) team status
          = (s :: (set_first_status rest team status).1,
            (set_first_status rest team status).2)
      rw [set_first_status, if_neg h, ih]

theorem set_first_status_fst_idem (l : List Slot) (team status : String) :
    (set_first_status (set_first_status l team status).1 team status).1
      = (set_first_status l team status).1 := by
  rw [set_first_status_idem]

/-- A second schedule-version pass of `_update_slot_status` leaves an
already-updated schedule list unchanged. -/
theorem sched_map_idem (aid team status : String) (l : List Schedule) :
    (l.map (fun sch =>
        if sch.id = aid then
          { sch with slots := (set_first_status sch.slots team status).1 }
        else sch)).map (fun sch =>
        if sch.id = aid then
          { sch with slots := (set_first_status sch.slots team status).1 }
        else sch)
      = l.map (fun sch =>
        if sch.id = aid then
          { sch with slots := (set_first_status sch.slots team status).1 }
        else sch) := by
  apply map_id_of_eq
  intro sch hsch
  rcases List.mem_map.mp hsch with ⟨sch0, _, rfl⟩
  by_cases hid : sch0.id = aid
  · have hid1 : (if sch0.id = aid then
        ({ sch0 with slots := (set_first_status sch0.slots team status).1 }
          : Schedule)
      else sch0)
        = { sch0 with slots := (set_first_status sch0.slots team status).1 } := by
      rw [if_pos hid]
    rw [hid1]
    have hid2 : ({ sch0 with
        slots := (set_first_status sch0.slots team status).1 } : Schedule).id
        = aid := hid
    rw [if_pos hid2]
    have h3 := set_first_status_fst_idem sch0.slots team status
    dsimp only at h3 ⊢
    rw [h3]
  · rw [if_neg hid, if_neg hid]

/-- A state whose slot and schedule data are already those produced by one
`_update_slot_status` run absorbs a second run: the state is unchanged and the
reported judge id is the first run's. -/
theorem update_slot_status_stable (st st2 : State) (team status : String)
    (hs : st2.slots = (update_slot_status st team status).1.slots)
    (hh : st2.schedules = (update_slot_status st team status).1.schedules)
    (ha : st2.active_schedule_id = st.active_schedule_id) :
    update_slot_status st2 team status
      = (st2, (update_slot_status st team status).2) := by
  have hs' : st2.slots = (set_first_status st.slots team status).1 := hs
  have e2 : (update_slot_status st team status).2
      = (set_first_status st.slots team status).2 := rfl
  have hsf : set_first_status st2.slots team status
      = set_first_status st.slots team status := by
    rw [hs']
    exact set_first_status_idem st.slots team status
  have hsched : (match st2.active_schedule_id with
      | none => st2.schedules
      | some aid =>
        if aid = "" then st2.schedules
        else st2.schedules.map (fun sch =>
          if sch.id = aid then
            { sch with slots := (set_first_status sch.slots team status).1 }
          else sch)) = st2.schedules := by
    rw [ha]
    cases hact : st.active_schedule_id with
    | none => rfl
    | some aid =>
      dsimp only
      by_cases haid : aid = ""
      · rw [if_pos haid]
      · rw [if_neg haid]
        have hh' : st2.schedules = st.schedules.map (fun sch =>
            if sch.id = aid then
              { sch with slots := (set_first_status sch.slots team status).1 }
            else sch) := by
          have e3 : (update_slot_status st team status).1.schedules
              = (match st.active_schedule_id with
                | none => st.schedules
                | some aid2 =>
                  if aid2 = "" then st.schedules
                  else st.schedules.map (fun sch =>
                    if sch.id = aid2 then
                      { sch with
                        slots := (set_first_status sch.slots team status).1 }
                    else sch)) := rfl
          rw [hh, e3, hact]
          dsimp only
          rw [if_neg haid]
        rw [hh']
        exact sched_map_idem aid team status st.schedules
  rw [update_slot_status]
  rw [hsf, hsched, e2, ← hs']

theorem filter_idem {α : Type} (p : α → Bool) (l : List α) :
    (l.filter p).filter p = l.filter p := by
  induction l with
  | nil => rfl
  | cons a t ih =>
    cases hpa : p a with
    | true =>
      rw [List.filter_cons_of_pos hpa, List.filter_cons_of_pos hpa, ih]
    | false =>
      rw [List.filter_cons_of_neg (by simp [hpa]), ih]

theorem popLastSuggestion_idem (ls : Option Suggestion) (team : String) :
    popLastSuggestion (popLastSuggestion ls team) team
      = popLastSuggestion ls team := by
  cases ls with
  | none => rfl
  | some sug =>
    rw [popLastSuggestion]
    by_cases h : sug.team = team
    · rw [if_pos h]
      rfl
    · rw [if_neg h, popLastSuggestion, if_neg h]

theorem checkoffApply_idem (st1 : State) (team : String) :
    checkoffApply (checkoffApply st1 team) team = checkoffApply st1 team := by
  rw [checkoffApply, checkoffApply]
  dsimp only
  rw [filter_idem, filter_idem, popLastSuggestion_idem]

/-- C8 (status: confirmed).  `checkoff` is idempotent: whenever checking off a
team succeeds, applying the operation again to the same team in the resulting
state succeeds and returns exactly that state. -/
theorem checkoff_idempotent (st : State) (team : String) (st' : State)
    (h : checkoff st team = .ok st') : checkoff st' team = .ok st' := by
  by_cases hteam : team = ""
  · rw [checkoff, if_pos hteam] at h
    cases h
  · rw [checkoff, if_neg hteam] at h
    rcases hj : (update_slot_status st team "checked").2 with _ | j
    · rw [hj] at h
      cases h
    · rw [hj] at h
      dsimp only at h
      have hst' : st'
          = checkoffApply (update_slot_status st team "checked").1 team := by
        cases h
        rfl
      subst hst'
      rw [checkoff, if_neg hteam]
      have hstable := update_slot_status_stable st
        (checkoffApply (update_slot_status st team "checked").1 team) team "checked"
        rfl rfl rfl
      rw [hstable]
      dsimp only
      rw [hj]
      dsimp only
      rw [checkoffApply_idem]

/-- A one-team state, before check-off. -/
def c8State : State :=
  { config := ⟨10, 1, 8⟩
    locked := false
    noshow_locked := false
    slots := [⟨1, 32400, 33000, some "42", "scheduled"⟩]
    active_schedule_id := some "schedule-1"
    schedules := [⟨"schedule-1", [⟨1, 32400, 33000, some "42", "scheduled"⟩]⟩]
    no_shows := ["42"]
    no_show_suggestions := [⟨"42", []⟩]
    last_suggestions := some ⟨"42", []⟩
    team_matches := []
    team_times := [] }

/-- The state after checking off team `"42"` in `c8State`. -/
def c8StateOnce : State :=
  { c8State with
    slots := [⟨1, 32400, 33000, some "42", "checked"⟩]
    schedules := [⟨"schedule-1", [⟨1, 32400, 33000, some "42", "checked"⟩]⟩]
    no_shows := []
    no_show_suggestions := []
    last_suggestions := none }

/-- Witness for C8: checking off team `"42"` twice ends exactly where one
check-off ends. -/
theorem checkoff_idempotent_witness :
    checkoff c8State "42" = .ok c8StateOnce ∧
    checkoff c8StateOnce "42" = .ok c8StateOnce :=
  ⟨by decide, checkoff_idempotent c8State "42" c8StateOnce (by decide)⟩

/-! ### The balanced randomized assigner (`_assign_slots_balanced_random`) -/

/-- Slots paired with their position in the caller's list, standing for Python
object identity: mutating `judge_slots[j][i].team` mutates the same object the
caller's `slots` list holds. -/
def idxFrom {α : Type} : Nat → List α → List (Nat × α)
  | _, [] => []
  | n, a :: rest => (n, a) :: idxFrom (n + 1) rest

/-- Look up the team chosen for an original slot position. -/
def lookupIdx (i : Nat) : List (Nat × String) → Option String
  | [] => none
  | kv :: rest => if kv.1 = i then some kv.2 else lookupIdx i rest

/-- The sort key of `sorted(slots, key=lambda s: (s.judge_id, s.start))`
(src/app.py line 197), on indexed slots. -/
def slotKeyLe (a b : Nat × Slot) : Bool :=
  decide (a.2.judge_id < b.2.judge_id) ||
    (decide (a.2.judge_id = b.2.judge_id) && decide (a.2.start ≤ b.2.start))

/-- The `assignments` multiset of src/app.py lines 183-191: each judge id,
repeated `base + 1` times when drawn by `random.sample(judge_ids, remainder)`
(the `extra_judges` parameter), else `base` times. -/
def buildAssignments (judge_pairs nTeams : Nat) (extra_judges : List Int) :
    List Int :=
  (judgeIds judge_pairs).flatMap (fun j =>
    List.replicate (nTeams / judge_pairs + (if j ∈ extra_judges then 1 else 0)) j)

/-- The grouped, start-sorted slot dictionary `judge_slots` of src/app.py lines
196-198, as a per-judge lookup (Python's stable sort then per-judge append
equals filtering the sorted list). -/
def sortedIndexedSlots (slots : List Slot) : List (Nat × Slot) :=
  sortLe slotKeyLe (idxFrom 0 slots)

def judgeSlotsOf (slots : List Slot) : Int → List (Nat × Slot) :=
  fun j => (sortedIndexedSlots slots).filter (fun p => decide (p.2.judge_id = j))

/-- Accumulator of the assignment loop (src/app.py lines 200-208): the chosen
(original slot position, team) pairs, `judge_indices`, and the unassigned
teams. -/
structure AssignAcc where
  chosen : List (Nat × String)
  idx : Int → Nat
  unassigned : List String

/-- One iteration of `for team, judge_id in zip(teams, assignments)` (src/app.py
lines 201-208): fill the judge's next unused slot, or report the team
unassigned when the judge's grid is exhausted. -/
def assignStep (judgeSlots : Int → List (Nat × Slot)) (acc : AssignAcc)
    (tj : String × Int) : AssignAcc :=
  if h : acc.idx tj.2 < (judgeSlots tj.2).length then
    { chosen := acc.chosen ++ [(((judgeSlots tj.2).get ⟨acc.idx tj.2, h⟩).1, tj.1)]
      idx := upd acc.idx tj.2 (acc.idx tj.2 + 1)
      unassigned := acc.unassigned }
  else { acc with unassigned := acc.unassigned ++ [tj.1] }

/-- The whole assignment loop. -/
def assignFold (slots : List Slot) (shA : List Int) (shT : List String) :
    AssignAcc :=
  (shT.zip shA).foldl (assignStep (judgeSlotsOf slots)) ⟨[], fun _ => 0, []⟩

/-- `KeyError` raised on src/app.py line 198 when a slot's judge id is not a key
of `judge_slots`. -/
inductive AssignErr where
  | keyError
deriving DecidableEq

/-- `_assign_slots_balanced_random` (src/app.py lines 174-213).
`shuffled_assignments` and `shuffled_teams` are the post-shuffle contents of
`assignments` and `teams` (the `random.shuffle` calls on lines 193-194);
`random.shuffle(teams)` shuffles the caller's list in place, so the result's
third component is the caller's team list after the call.  Returned slots are
the input slots with `team` set wherever the loop assigned one. -/
def assign_slots_balanced_random (slots : List Slot) (teams : List String)
    (judge_pairs : Nat) (shuffled_assignments : List Int)
    (shuffled_teams : List String) :
    Except AssignErr (List Slot × List String × List String) :=
  if teams = [] then .ok (slots, [], teams)
  else if slots.all (fun s => decide (s.judge_id ∈ judgeIds judge_pairs)) then
    .ok ((idxFrom 0 slots).map (fun p =>
        match lookupIdx p.1
            (assignFold slots shuffled_assignments shuffled_teams).chosen with
        | some t => { p.2 with team := some t }
        | none => p.2),
      (if shuffled_assignments.length < teams.length then
        (assignFold slots shuffled_assignments shuffled_teams).unassigned
          ++ shuffled_teams.drop shuffled_assignments.length
      else (assignFold slots shuffled_assignments shuffled_teams).unassigned),
      shuffled_teams)
  else .error .keyError

/-- Teams assigned to a judge in the resulting slot list. -/
def countAssigned (slots : List Slot) (j : Int) : Nat :=
  (slots.filter (fun s => decide (s.judge_id = j) && s.team.isSome)).length

/-- C9 counterexample: with teams `["A", "B"]` and one judge, the draw in which
`random.shuffle(teams)` swaps the two teams (a possible outcome, witnessed by
the `Perm` facts) leaves the caller's team list as `["B", "A"]` after the call —
the order changed, so the shuffle is not done on a copy. -/
theorem assign_team_list_shuffled_cex :
    List.Perm ["B", "A"] ["A", "B"] ∧
    List.Perm ([1, 1] : List Int) (buildAssignments 1 2 []) ∧
    assign_slots_balanced_random [] ["A", "B"] 1 [1, 1] ["B", "A"]
      = .ok ([], ["B", "A"], ["B", "A"]) ∧
    (["B", "A"] : List String) ≠ ["A", "B"] := by
  decide

theorem forall₂_idxFrom_map {slots : List Slot} {f : Nat × Slot → Slot}
    (hf : ∀ p : Nat × Slot, (f p).judge_id = p.2.judge_id ∧
      (f p).start = p.2.start ∧ (f p).end_ = p.2.end_ ∧ (f p).status = p.2.status) :
    ∀ n, List.Forall₂ (fun s s' : Slot => s'.judge_id = s.judge_id ∧
      s'.start = s.start ∧ s'.end_ = s.end_ ∧ s'.status = s.status)
      slots ((idxFrom n slots).map f) := by
  induction slots with
  | nil => intro n; exact List.Forall₂.nil
  | cons s rest ih =>
    intro n
    rw [idxFrom, List.map_cons]
    exact List.Forall₂.cons (hf (n, s)) (ih (n + 1))

/-- C9 (status: corrected).  `_assign_slots_balanced_random` mutates only the
slots' `team` fields (every slot keeps its judge, times and status, positionally),
and after the call the caller's team list holds the same teams as a multiset —
but `random.shuffle(teams)` shuffles the caller's list in place, so the order
may change (see the counterexample); no copy is made. -/
theorem assign_frame_and_team_perm (slots : List Slot) (teams : List String)
    (judge_pairs : Nat) (shA : List Int) (shT : List String)
    (hT : shT.Perm teams)
    (slots' : List Slot) (unassigned teamsAfter : List String)
    (hres : assign_slots_balanced_random slots teams judge_pairs shA shT
        = .ok (slots', unassigned, teamsAfter)) :
    teamsAfter.Perm teams ∧
    List.Forall₂ (fun s s' : Slot => s'.judge_id = s.judge_id ∧ s'.start = s.start ∧
      s'.end_ = s.end_ ∧ s'.status = s.status) slots slots' := by
  rw [assign_slots_balanced_random] at hres
  by_cases hempty : teams = []
  · rw [if_pos hempty] at hres
    simp only [Except.ok.injEq, Prod.mk.injEq] at hres
    obtain ⟨h1, _, h3⟩ := hres
    constructor
    · rw [← h3]
    · rw [← h1]
      exact List.forall₂_same.mpr (fun s _ => ⟨rfl, rfl, rfl, rfl⟩)
  · rw [if_neg hempty] at hres
    by_cases hall : slots.all (fun s => decide (s.judge_id ∈ judgeIds judge_pairs))
        = true
    · rw [if_pos hall] at hres
      simp only [Except.ok.injEq, Prod.mk.injEq] at hres
      obtain ⟨h1, _, h3⟩ := hres
      constructor
      · rw [← h3]
        exact hT
      · rw [← h1]
        exact forall₂_idxFrom_map (fun p => by
          cases hl : lookupIdx p.1 (assignFold slots shA shT).chosen with
          | some t => exact ⟨rfl, rfl, rfl, rfl⟩
          | none => exact ⟨rfl, rfl, rfl, rfl⟩) 0
    · rw [if_neg hall] at hres
      cases hres

/-- Witness for C9's amended theorem at a one-team, one-judge call. -/
theorem assign_frame_and_team_perm_witness :
    List.Perm ["A"] ["A"] ∧
    assign_slots_balanced_random [⟨1, 0, 600, none, "scheduled"⟩] ["A"] 1 [1] ["A"]
      = .ok ([⟨1, 0, 600, some "A", "scheduled"⟩], [], ["A"]) ∧
    (List.Perm ["A"] ["A"] ∧
      List.Forall₂ (fun s s' : Slot => s'.judge_id = s.judge_id ∧
        s'.start = s.start ∧ s'.end_ = s.end_ ∧ s'.status = s.status)
        [⟨1, 0, 600, none, "scheduled"⟩] [⟨1, 0, 600, some "A", "scheduled"⟩]) :=
  ⟨by decide, by decide,
    assign_frame_and_team_perm [⟨1, 0, 600, none, "scheduled"⟩] ["A"] 1 [1] ["A"]
      (by decide) [⟨1, 0, 600, some "A", "scheduled"⟩] [] ["A"] (by decide)⟩

/-! ### C1: balanced distribution of teams over judges -/

theorem idxFrom_map_fst {α : Type} (l : List α) :
    ∀ n, (idxFrom n l).map Prod.fst = List.range' n l.length := by
  induction l with
  | nil => intro n; rfl
  | cons a t ih =>
    intro n
    rw [idxFrom, List.map_cons, ih, List.length_cons, List.range'_succ]

theorem idxFrom_mem_snd {α : Type} {l : List α} :
    ∀ {n : Nat} {p : Nat × α}, p ∈ idxFrom n l → p.2 ∈ l := by
  induction l with
  | nil => intro n p hp; cases hp
  | cons a t ih =>
    intro n p hp
    rcases List.mem_cons.mp hp with hpa | hp'
    · rw [hpa]
      exact List.mem_cons_self _ _
    · exact List.mem_cons_of_mem _ (ih hp')

theorem idxFrom_filter_length {α : Type} (q : α → Bool) (l : List α) :
    ∀ n, ((idxFrom n l).filter (fun p => q p.2)).length = (l.filter q).length := by
  induction l with
  | nil => intro n; rfl
  | cons a t ih =>
    intro n
    rw [idxFrom]
    cases hq : q a with
    | true => simp [List.filter_cons, hq, ih]
    | false => simp [List.filter_cons, hq, ih]

theorem inj_of_nodup_map {α β : Type} {f : α → β} {l : List α}
    (h : (l.map f).Nodup) : ∀ p ∈ l, ∀ q ∈ l, f p = f q → p = q := by
  induction l with
  | nil => intro p hp; cases hp
  | cons a t ih =>
    rw [List.map_cons, List.nodup_cons] at h
    intro p hp q hq hfq
    rcases List.mem_cons.mp hp with hpa | hp' <;> rcases List.mem_cons.mp hq with hqa | hq'
    · rw [hpa, hqa]
    · rw [hpa] at hfq ⊢
      exact absurd (hfq ▸ List.mem_map_of_mem f hq') h.1
    · rw [hqa] at hfq ⊢
      exact absurd (hfq ▸ List.mem_map_of_mem f hp') (by
        intro hmem
        exact h.1 hmem)
    · exact ih h.2 p hp' q hq' hfq

theorem lookupIdx_isSome_iff (i : Nat) (c : List (Nat × String)) :
    (lookupIdx i c).isSome = true ↔ i ∈ c.map Prod.fst := by
  induction c with
  | nil => simp [lookupIdx]
  | cons kv rest ih =>
    rw [lookupIdx]
    by_cases h : kv.1 = i
    · simp [h]
    · simp only [if_neg h, ih, List.map_cons, List.mem_cons]
      constructor
      · exact Or.inr
      · intro hmem
        rcases hmem with heq | hmem'
        · exact absurd heq.symm h
        · exact hmem'

theorem sortedKeys_nodup (slots : List Slot) :
    ((sortedIndexedSlots slots).map Prod.fst).Nodup := by
  have hperm := (sortLe_perm slotKeyLe (idxFrom 0 slots)).map Prod.fst
  rw [sortedIndexedSlots, List.Perm.nodup_iff hperm, idxFrom_map_fst]
  exact List.nodup_range' 0 slots.length

theorem judgeSlots_keys_nodup (slots : List Slot) (j : Int) :
    ((judgeSlotsOf slots j).map Prod.fst).Nodup :=
  ((List.filter_sublist _).map Prod.fst).nodup (sortedKeys_nodup slots)

theorem judgeSlots_judge {slots : List Slot} {j : Int} {p : Nat × Slot}
    (hp : p ∈ judgeSlotsOf slots j) : p.2.judge_id = j := by
  have := (List.mem_filter.mp hp).2
  simpa using this

theorem judgeSlots_keys_disjoint (slots : List Slot) {j j' : Int} (hne : j ≠ j')
    {k : Nat} (hk : k ∈ (judgeSlotsOf slots j).map Prod.fst) :
    k ∉ (judgeSlotsOf slots j').map Prod.fst := by
  intro hk'
  rcases List.mem_map.mp hk with ⟨p, hp, hpk⟩
  rcases List.mem_map.mp hk' with ⟨q, hq, hqk⟩
  have hpq : p = q := inj_of_nodup_map (sortedKeys_nodup slots)
    p (List.mem_of_mem_filter hp) q (List.mem_of_mem_filter hq)
    (by rw [hpk, hqk])
  have h1 := judgeSlots_judge hp
  have h2 := judgeSlots_judge hq
  rw [hpq, h2] at h1
  exact hne h1.symm

theorem judgeSlots_length (slots : List Slot) (j : Int) :
    (judgeSlotsOf slots j).length
      = (slots.filter (fun s => decide (s.judge_id = j))).length := by
  rw [judgeSlotsOf, sortedIndexedSlots]
  have hperm := (sortLe_perm slotKeyLe (idxFrom 0 slots)).filter
    (fun p : Nat × Slot => decide (p.2.judge_id = j))
  rw [hperm.length_eq]
  exact idxFrom_filter_length (fun s => decide (s.judge_id = j)) slots 0

theorem flatMap_replicate_countP (tg : Int → Nat) (j : Int) :
    ∀ ids : List Int, ids.Nodup →
      (ids.flatMap (fun j' => List.replicate (tg j') j')).countP
          (fun x => decide (x = j))
        = if j ∈ ids then tg j else 0 := by
  intro ids
  induction ids with
  | nil => intro _; simp
  | cons a t ih =>
    intro hnd
    rw [List.nodup_cons] at hnd
    rw [List.flatMap_cons, List.countP_append, List.countP_replicate, ih hnd.2]
    by_cases haj : a = j
    · rw [haj, if_pos (by simp), if_pos (List.mem_cons_self _ _),
        if_neg (haj ▸ hnd.1)]
      omega
    · rw [if_neg (by simpa using haj)]
      by_cases hjt : j ∈ t
      · rw [if_pos hjt, if_pos (List.mem_cons_of_mem _ hjt)]
        omega
      · rw [if_neg hjt, if_neg (by
          intro hmem
          rcases List.mem_cons.mp hmem with hja | hjt'
          · exact haj hja.symm
          · exact hjt hjt')]

theorem buildAssignments_countP (judge_pairs nTeams : Nat) (extra : List Int)
    (j : Int) :
    (buildAssignments judge_pairs nTeams extra).countP (fun x => decide (x = j))
      = if j ∈ judgeIds judge_pairs
        then nTeams / judge_pairs + (if j ∈ extra then 1 else 0) else 0 := by
  rw [buildAssignments]
  exact flatMap_replicate_countP
    (fun j' => nTeams / judge_pairs + (if j' ∈ extra then 1 else 0)) j
    (judgeIds judge_pairs) (judgeIds_nodup judge_pairs)

theorem buildAssignments_length (judge_pairs nTeams : Nat) (extra : List Int)
    (hnd : extra.Nodup) (hsub : extra ⊆ judgeIds judge_pairs) :
    (buildAssignments judge_pairs nTeams extra).length
      = judge_pairs * (nTeams / judge_pairs) + extra.length := by
  rw [buildAssignments, List.length_flatMap]
  have hfn : (List.length ∘ fun j : Int => List.replicate
      (nTeams / judge_pairs + (if j ∈ extra then 1 else 0)) j)
      = fun j : Int => nTeams / judge_pairs + (if j ∈ extra then 1 else 0) :=
    funext (fun j => List.length_replicate _ _)
  rw [hfn, sum_map_base_ite,
    countP_mem_eq_length (judgeIds_nodup judge_pairs) hnd hsub, judgeIds_length]

theorem cnt_cons (a j : Int) (l : List Int) :
    (a :: l).countP (fun x => decide (x = j))
      = l.countP (fun x => decide (x = j)) + (if a = j then 1 else 0) := by
  rw [List.countP_cons]
  by_cases h : a = j
  · simp [h]
  · simp [h]

/-- Invariant of the assignment loop: no team is reported unassigned, each
judge's next-slot index counts that judge's processed pairs, and the chosen
original positions for each judge are exactly the first `idx j` entries of that
judge's start-sorted slot list. -/
theorem assignFold_spec (slots : List Slot) :
    ∀ (P : List (String × Int)) (acc : AssignAcc),
      acc.unassigned = [] →
      (∀ j : Int, ((acc.chosen.filter (fun kv =>
          decide (kv.1 ∈ (judgeSlotsOf slots j).map Prod.fst))).map Prod.fst)
        = ((judgeSlotsOf slots j).take (acc.idx j)).map Prod.fst) →
      (∀ j : Int, acc.idx j + (P.map Prod.snd).countP (fun x => decide (x = j))
        ≤ (judgeSlotsOf slots j).length) →
      (P.foldl (assignStep (judgeSlotsOf slots)) acc).unassigned = [] ∧
      (∀ j : Int, (P.foldl (assignStep (judgeSlotsOf slots)) acc).idx j
        = acc.idx j + (P.map Prod.snd).countP (fun x => decide (x = j))) ∧
      (∀ j : Int, (((P.foldl (assignStep (judgeSlotsOf slots)) acc).chosen.filter
          (fun kv => decide (kv.1 ∈ (judgeSlotsOf slots j).map Prod.fst))).map
            Prod.fst)
        = ((judgeSlotsOf slots j).take
            ((P.foldl (assignStep (judgeSlotsOf slots)) acc).idx j)).map
              Prod.fst) := by
  intro P
  induction P with
  | nil =>
    intro acc hun hkf _
    exact ⟨hun, fun j => by simp, hkf⟩
  | cons tj P' ih =>
    intro acc hun hkf hcap
    have hcapj : acc.idx tj.2 < (judgeSlotsOf slots tj.2).length := by
      have hc := hcap tj.2
      rw [List.map_cons, cnt_cons, if_pos rfl] at hc
      omega
    have hstep : assignStep (judgeSlotsOf slots) acc tj
        = { chosen := acc.chosen ++
              [(((judgeSlotsOf slots tj.2).get ⟨acc.idx tj.2, hcapj⟩).1, tj.1)]
            idx := upd acc.idx tj.2 (acc.idx tj.2 + 1)
            unassigned := acc.unassigned } := by
      rw [assignStep, dif_pos hcapj]
    rw [List.foldl_cons, hstep]
    have hkmem : ((judgeSlotsOf slots tj.2).get ⟨acc.idx tj.2, hcapj⟩).1
        ∈ (judgeSlotsOf slots tj.2).map Prod.fst :=
      List.mem_map_of_mem Prod.fst (List.get_mem _ _ _)
    have hkf' : ∀ j : Int, (((acc.chosen ++
        [(((judgeSlotsOf slots tj.2).get ⟨acc.idx tj.2, hcapj⟩).1, tj.1)]).filter
          (fun kv => decide (kv.1 ∈ (judgeSlotsOf slots j).map Prod.fst))).map
            Prod.fst)
        = ((judgeSlotsOf slots j).take
            ((upd acc.idx tj.2 (acc.idx tj.2 + 1)) j)).map Prod.fst := by
      intro j
      rw [List.filter_append, List.map_append]
      by_cases hj : j = tj.2
      · rw [hj, upd_same]
        have hkeep : List.filter (fun kv : Nat × String =>
            decide (kv.1 ∈ (judgeSlotsOf slots tj.2).map Prod.fst))
            [(((judgeSlotsOf slots tj.2).get ⟨acc.idx tj.2, hcapj⟩).1, tj.1)]
            = [(((judgeSlotsOf slots tj.2).get ⟨acc.idx tj.2, hcapj⟩).1, tj.1)] := by
          rw [List.filter_cons_of_pos (by simpa using hkmem)]
          rfl
        rw [hkeep, hkf tj.2, List.take_succ, List.map_append,
          List.getElem?_eq_getElem hcapj]
        rfl
      · rw [upd_other _ _ _ _ hj]
        have hdrop : List.filter (fun kv : Nat × String =>
            decide (kv.1 ∈ (judgeSlotsOf slots j).map Prod.fst))
            [(((judgeSlotsOf slots tj.2).get ⟨acc.idx tj.2, hcapj⟩).1, tj.1)]
            = [] := by
          have hnotmem : ¬(((judgeSlotsOf slots tj.2).get ⟨acc.idx tj.2, hcapj⟩).1
              ∈ (judgeSlotsOf slots j).map Prod.fst) :=
            judgeSlots_keys_disjoint slots (fun h => hj h.symm) hkmem
          rw [List.filter_cons_of_neg
            (by simp only [decide_eq_true_eq]; exact hnotmem), List.filter_nil]
        rw [hdrop]
        simp only [List.map_nil, List.append_nil]
        exact hkf j
    have hcap' : ∀ j : Int, (upd acc.idx tj.2 (acc.idx tj.2 + 1)) j
        + (P'.map Prod.snd).countP (fun x => decide (x = j))
        ≤ (judgeSlotsOf slots j).length := by
      intro j
      have hc := hcap j
      rw [List.map_cons, cnt_cons] at hc
      by_cases hj : j = tj.2
      · subst hj
        rw [upd_same]
        rw [if_pos rfl] at hc
        omega
      · rw [upd_other _ _ _ _ hj]
        rw [if_neg (fun h => hj h.symm)] at hc
        omega
    obtain ⟨h1, h2, h3⟩ := ih ⟨acc.chosen ++
        [(((judgeSlotsOf slots tj.2).get ⟨acc.idx tj.2, hcapj⟩).1, tj.1)],
      upd acc.idx tj.2 (acc.idx tj.2 + 1), acc.unassigned⟩ hun hkf' hcap'
    refine ⟨h1, fun j => ?_, h3⟩
    rw [h2 j, List.map_cons, cnt_cons]
    dsimp only
    by_cases hj : j = tj.2
    · subst hj
      rw [upd_same, if_pos rfl]
      omega
    · rw [upd_other _ _ _ _ hj, if_neg (fun h => hj h.symm)]
      omega

theorem assignFold_counts (slots : List Slot) (shA : List Int) (shT : List String)
    (hlen : shT.length = shA.length)
    (hcap : ∀ j : Int, shA.countP (fun x => decide (x = j))
      ≤ (judgeSlotsOf slots j).length) :
    (assignFold slots shA shT).unassigned = [] ∧
    (∀ j : Int, (assignFold slots shA shT).idx j
        = shA.countP (fun x => decide (x = j))) ∧
    (∀ j : Int, (((assignFold slots shA shT).chosen.filter (fun kv =>
        decide (kv.1 ∈ (judgeSlotsOf slots j).map Prod.fst))).map Prod.fst)
      = ((judgeSlotsOf slots j).take
          (shA.countP (fun x => decide (x = j)))).map Prod.fst) := by
  have hzip : (shT.zip shA).map Prod.snd = shA :=
    List.map_snd_zip shT shA (le_of_eq hlen.symm)
  obtain ⟨h1, h2, h3⟩ := assignFold_spec slots (shT.zip shA) ⟨[], fun _ => 0, []⟩
    rfl (fun j => by simp) (fun j => by rw [hzip]; simpa using hcap j)
  rw [assignFold]
  refine ⟨h1, fun j => ?_, fun j => ?_⟩
  · rw [h2 j, hzip]
    simp
  · rw [h3 j, h2 j, hzip]
    simp

theorem countAssigned_eq (slots : List Slot) (shA : List Int) (shT : List String)
    (hnone : ∀ s ∈ slots, s.team = none)
    (hlen : shT.length = shA.length)
    (hcap : ∀ j : Int, shA.countP (fun x => decide (x = j))
      ≤ (judgeSlotsOf slots j).length)
    (j : Int) :
    countAssigned ((idxFrom 0 slots).map (fun p =>
      match lookupIdx p.1 (assignFold slots shA shT).chosen with
      | some t => { p.2 with team := some t }
      | none => p.2)) j = shA.countP (fun x => decide (x = j)) := by
  obtain ⟨-, -, h3⟩ := assignFold_counts slots shA shT hlen hcap
  rw [countAssigned, ← List.countP_eq_length_filter, List.countP_map]
  have hA : List.countP ((fun s : Slot => decide (s.judge_id = j) && s.team.isSome)
      ∘ (fun p : Nat × Slot =>
        match lookupIdx p.1 (assignFold slots shA shT).chosen with
        | some t => { p.2 with team := some t }
        | none => p.2)) (idxFrom 0 slots)
      = List.countP (fun p : Nat × Slot => decide (p.2.judge_id = j)
          && (lookupIdx p.1 (assignFold slots shA shT).chosen).isSome)
        (idxFrom 0 slots) := by
    apply List.countP_congr
    intro p hp
    have hpt : p.2.team = none := hnone p.2 (idxFrom_mem_snd hp)
    cases hl : lookupIdx p.1 (assignFold slots shA shT).chosen with
    | some t => simp [Function.comp, hl]
    | none => simp [Function.comp, hl, hpt]
  rw [hA]
  have hB := (sortLe_perm slotKeyLe (idxFrom 0 slots)).countP_eq
    (fun p : Nat × Slot => decide (p.2.judge_id = j)
      && (lookupIdx p.1 (assignFold slots shA shT).chosen).isSome)
  rw [← hB]
  have hC : List.countP (fun p : Nat × Slot => decide (p.2.judge_id = j)
      && (lookupIdx p.1 (assignFold slots shA shT).chosen).isSome)
      (sortLe slotKeyLe (idxFrom 0 slots))
      = List.countP (fun p : Nat × Slot =>
          (lookupIdx p.1 (assignFold slots shA shT).chosen).isSome)
        (judgeSlotsOf slots j) := by
    rw [judgeSlotsOf, sortedIndexedSlots, List.countP_filter]
    apply List.countP_congr
    intro p _
    cases hs : (lookupIdx p.1 (assignFold slots shA shT).chosen).isSome <;>
      cases hd : decide (p.2.judge_id = j) <;> simp [hs, hd]
  rw [hC]
  have hklen : shA.countP (fun x => decide (x = j))
      ≤ (judgeSlotsOf slots j).length := hcap j
  have htake : List.countP (fun p : Nat × Slot =>
      (lookupIdx p.1 (assignFold slots shA shT).chosen).isSome)
      ((judgeSlotsOf slots j).take (shA.countP (fun x => decide (x = j))))
      = shA.countP (fun x => decide (x = j)) := by
    rw [List.countP_eq_length_filter, List.filter_eq_self.mpr ?_, List.length_take,
      Nat.min_eq_left hklen]
    intro p hp
    rw [lookupIdx_isSome_iff]
    have hmem : p.1 ∈ ((judgeSlotsOf slots j).take
        (shA.countP (fun x => decide (x = j)))).map Prod.fst :=
      List.mem_map_of_mem Prod.fst hp
    rw [← h3 j] at hmem
    exact ((List.filter_sublist _).map Prod.fst).subset hmem
  have hdrop : List.countP (fun p : Nat × Slot =>
      (lookupIdx p.1 (assignFold slots shA shT).chosen).isSome)
      ((judgeSlotsOf slots j).drop (shA.countP (fun x => decide (x = j)))) = 0 := by
    rw [List.countP_eq_zero]
    intro p hp hcontra
    rw [lookupIdx_isSome_iff] at hcontra
    have hpmem : p ∈ judgeSlotsOf slots j := List.mem_of_mem_drop hp
    have hpk : p.1 ∈ ((judgeSlotsOf slots j).take
        (shA.countP (fun x => decide (x = j)))).map Prod.fst := by
      rw [← h3 j]
      rcases List.mem_map.mp hcontra with ⟨kv, hkv, hkveq⟩
      refine List.mem_map.mpr ⟨kv, List.mem_filter.mpr ⟨hkv, ?_⟩, hkveq⟩
      rw [hkveq]
      exact decide_eq_true (List.mem_map_of_mem Prod.fst hpmem)
    have hnd := judgeSlots_keys_nodup slots j
    rw [show judgeSlotsOf slots j
        = (judgeSlotsOf slots j).take (shA.countP (fun x => decide (x = j)))
          ++ (judgeSlotsOf slots j).drop (shA.countP (fun x => decide (x = j)))
      from (List.take_append_drop _ _).symm, List.map_append,
      List.nodup_append] at hnd
    exact hnd.2.2 hpk (List.mem_map_of_mem Prod.fst hp)
  conv_lhs => rw [← List.take_append_drop
    (shA.countP (fun x => decide (x = j))) (judgeSlotsOf slots j)]
  rw [List.countP_append, htake, hdrop]
  exact Nat.add_zero _

/-- C1: for every team list of size `N` and judge count `J ≥ 1`, with the
random draws fixed as parameters (`extra` the `N % J` distinct judges sampled
on src/app.py line 188, `shA` / `shT` the shuffled assignment and team lists of
lines 193-194), when every judge's grid holds at least `⌈N/J⌉` empty slots the
assigner succeeds with no team unassigned, every judge's team count is
`N / J` plus one exactly for the judges in `extra`, so the per-judge counts
differ by at most one, all equal `N / J` when `J ∣ N`, and when `0 < N % J`
exactly `N % J` judges receive `N / J + 1` teams. -/
theorem assign_balanced_counts
    (slots : List Slot) (teams : List String) (judge_pairs : Nat)
    (extra shA : List Int) (shT : List String)
    (hJ : 1 ≤ judge_pairs)
    (hnd : extra.Nodup) (hsub : extra ⊆ judgeIds judge_pairs)
    (hext : extra.length = teams.length % judge_pairs)
    (hA : shA.Perm (buildAssignments judge_pairs teams.length extra))
    (hT : shT.Perm teams)
    (hjudge : ∀ s ∈ slots, s.judge_id ∈ judgeIds judge_pairs)
    (hnone : ∀ s ∈ slots, s.team = none)
    (hcap : ∀ j ∈ judgeIds judge_pairs,
      (teams.length + judge_pairs - 1) / judge_pairs
        ≤ (slots.filter (fun s => decide (s.judge_id = j))).length) :
    ∃ slots',
      assign_slots_balanced_random slots teams judge_pairs shA shT
        = .ok (slots', [], shT) ∧
      (∀ j ∈ judgeIds judge_pairs,
        countAssigned slots' j
          = teams.length / judge_pairs + (if j ∈ extra then 1 else 0)) ∧
      (∀ j ∈ judgeIds judge_pairs, ∀ j' ∈ judgeIds judge_pairs,
        countAssigned slots' j ≤ countAssigned slots' j' + 1) ∧
      (teams.length % judge_pairs = 0 → ∀ j ∈ judgeIds judge_pairs,
        countAssigned slots' j = teams.length / judge_pairs) ∧
      (0 < teams.length % judge_pairs →
        ((judgeIds judge_pairs).filter (fun j =>
            decide (countAssigned slots' j
              = teams.length / judge_pairs + 1))).length
          = teams.length % judge_pairs) := by
  by_cases hte : teams = []
  · subst hte
    have hsh : shT = [] := hT.eq_nil
    subst hsh
    have hzero : ∀ j, countAssigned slots j = 0 := by
      intro j
      rw [countAssigned, ← List.countP_eq_length_filter, List.countP_eq_zero]
      intro s hs
      simp [hnone s hs]
    have hextnil : extra = [] :=
      List.eq_nil_of_length_eq_zero (by simpa using hext)
    refine ⟨slots, ?_, ?_, ?_, ?_, ?_⟩
    · rw [assign_slots_balanced_random, if_pos rfl]
    · intro j _
      rw [hzero j, hextnil]
      simp
    · intro j _ j' _
      rw [hzero j]
      exact Nat.zero_le _
    · intro _ j _
      rw [hzero j]
      simp
    · intro hr
      simp at hr
  · have hlenA : shA.length = teams.length := by
      rw [hA.length_eq,
        buildAssignments_length judge_pairs teams.length extra hnd hsub, hext]
      exact Nat.div_add_mod teams.length judge_pairs
    have hlenT : shT.length = shA.length := by rw [hT.length_eq, hlenA]
    have hcountA : ∀ j : Int, shA.countP (fun x => decide (x = j))
        = if j ∈ judgeIds judge_pairs
          then teams.length / judge_pairs + (if j ∈ extra then 1 else 0)
          else 0 := by
      intro j
      rw [hA.countP_eq, buildAssignments_countP]
    have hcap' : ∀ j : Int, shA.countP (fun x => decide (x = j))
        ≤ (judgeSlotsOf slots j).length := by
      intro j
      rw [hcountA j]
      by_cases hjm : j ∈ judgeIds judge_pairs
      · rw [if_pos hjm, judgeSlots_length]
        refine le_trans ?_ (hcap j hjm)
        by_cases hje : j ∈ extra
        · rw [if_pos hje]
          have hr1 : 0 < teams.length % judge_pairs := by
            rw [← hext]
            exact List.length_pos.mpr (List.ne_nil_of_mem hje)
          rw [Nat.le_div_iff_mul_le (by omega : 0 < judge_pairs),
            Nat.add_mul, one_mul]
          have hdm := Nat.div_add_mod teams.length judge_pairs
          have hcomm : teams.length / judge_pairs * judge_pairs
              = judge_pairs * (teams.length / judge_pairs) := Nat.mul_comm _ _
          omega
        · rw [if_neg hje, Nat.add_zero]
          exact Nat.div_le_div_right (by omega)
      · rw [if_neg hjm]
        exact Nat.zero_le _
    have hguard :
        slots.all (fun s => decide (s.judge_id ∈ judgeIds judge_pairs))
          = true := by
      rw [List.all_eq_true]
      intro s hs
      exact decide_eq_true (hjudge s hs)
    obtain ⟨hun, -, -⟩ := assignFold_counts slots shA shT hlenT hcap'
    have hnolt : ¬ shA.length < teams.length := by omega
    have hc := countAssigned_eq slots shA shT hnone hlenT hcap'
    refine ⟨(idxFrom 0 slots).map (fun p =>
        match lookupIdx p.1 (assignFold slots shA shT).chosen with
        | some t => { p.2 with team := some t }
        | none => p.2), ?_, ?_, ?_, ?_, ?_⟩
    · rw [assign_slots_balanced_random, if_neg hte, if_pos hguard,
        if_neg hnolt, hun]
    · intro j hjm
      rw [hc j, hcountA j, if_pos hjm]
    · intro j hj j' hj'
      rw [hc j, hc j', hcountA j, hcountA j', if_pos hj, if_pos hj']
      split_ifs <;> omega
    · intro hr j hjm
      have hex : extra = [] := List.eq_nil_of_length_eq_zero (hext.trans hr)
      rw [hc j, hcountA j, if_pos hjm, hex]
      simp
    · intro _
      have hfe : (judgeIds judge_pairs).filter (fun j =>
          decide (countAssigned ((idxFrom 0 slots).map (fun p =>
            match lookupIdx p.1 (assignFold slots shA shT).chosen with
            | some t => { p.2 with team := some t }
            | none => p.2)) j = teams.length / judge_pairs + 1))
          = (judgeIds judge_pairs).filter (fun j => decide (j ∈ extra)) := by
        apply List.filter_congr
        intro j hjm
        rw [hc j, hcountA j, if_pos hjm]
        by_cases hje : j ∈ extra
        · simp [hje]
        · simp [hje]
      rw [hfe, ← List.countP_eq_length_filter,
        countP_mem_eq_length (judgeIds_nodup judge_pairs) hnd hsub]
      exact hext

/-- Witness for C1: three teams, two judge pairs, judge 1 sampled for the
remainder; each judge's grid holds `⌈3/2⌉ = 2` empty slots, so the assigner
succeeds, judge 1 gets two teams and judge 2 one. -/
theorem assign_balanced_counts_witness :
    ∃ slots',
      assign_slots_balanced_random
          [⟨1, 0, 600, none, "scheduled"⟩, ⟨1, 600, 1200, none, "scheduled"⟩,
           ⟨2, 0, 600, none, "scheduled"⟩, ⟨2, 600, 1200, none, "scheduled"⟩]
          ["101", "102", "103"] 2 [1, 2, 1] ["102", "101", "103"]
        = .ok (slots', [], ["102", "101", "103"]) ∧
      (∀ j ∈ judgeIds 2, countAssigned slots' j
        = 3 / 2 + (if j ∈ ([1] : List Int) then 1 else 0)) ∧
      (∀ j ∈ judgeIds 2, ∀ j' ∈ judgeIds 2,
        countAssigned slots' j ≤ countAssigned slots' j' + 1) ∧
      (3 % 2 = 0 → ∀ j ∈ judgeIds 2, countAssigned slots' j = 3 / 2) ∧
      (0 < 3 % 2 → ((judgeIds 2).filter (fun j =>
          decide (countAssigned slots' j = 3 / 2 + 1))).length = 3 % 2) :=
  assign_balanced_counts
    [⟨1, 0, 600, none, "scheduled"⟩, ⟨1, 600, 1200, none, "scheduled"⟩,
     ⟨2, 0, 600, none, "scheduled"⟩, ⟨2, 600, 1200, none, "scheduled"⟩]
    ["101", "102", "103"] 2 [1] [1, 2, 1] ["102", "101", "103"]
    (by decide) (by decide) (by decide) (by decide) (by decide) (by decide)
    (by decide) (by decide) (by decide)

end VexSched
